import Mathlib

/-!
Shallow embedding of the repochief-adapters core: the capability model
(`AIAgentAdapter.supportsFeature` / `getFeatureConfig`), the
`AdapterRegistry` (registration, default versions, capability scoring,
metrics), the `TaskRouter` (requirement inference, routing cache) and the
`OrchestrationStrategy` engine (fallback chain with availability /
suitability checks, timeouts, decomposition and aggregation).

JavaScript numbers are idealised as exact rationals (`Rat`); arithmetic is
expressed through `mkRat`-based operations so that concrete instances
evaluate inside the kernel.  JavaScript `Map`s are modelled as association
lists with insertion-order semantics (`set` replaces in place, otherwise
appends).  Asynchronous execution is modelled deterministically: every
adapter call yields a duration (in milliseconds) together with its outcome,
and the timeout race is won by the promise exactly when its duration is
strictly below the timeout.
-/

namespace Repochief

/-! ## Kernel-reducible rational arithmetic -/

/-- Addition on `Rat` via `mkRat`, definitionally evaluable by the kernel. -/
def ratAdd (a b : Rat) : Rat := mkRat (a.num * b.den + b.num * a.den) (a.den * b.den)

/-- Subtraction on `Rat` via `mkRat`. -/
def ratSub (a b : Rat) : Rat := mkRat (a.num * b.den - b.num * a.den) (a.den * b.den)

/-- Multiplication on `Rat` via `mkRat`. -/
def ratMul (a b : Rat) : Rat := mkRat (a.num * b.num) (a.den * b.den)

/-- Division on `Rat` via `Rat.divInt`. -/
def ratDiv (a b : Rat) : Rat := Rat.divInt (a.num * b.den) (a.den * b.num)

/-- Models `Math.min` on rationals. -/
def ratMin (a b : Rat) : Rat := if a ≤ b then a else b

/-! ## JavaScript `Map` semantics over association lists

A JS `Map` keeps keys unique and remembers insertion order: `set` on an
existing key replaces the value in place, on a fresh key appends at the
end; `delete` removes the binding; iteration follows the list order. -/

/-- Models `map.get(k)` -/
def jsMapGet {κ α : Type} [DecidableEq κ] (m : List (κ × α)) (k : κ) : Option α :=
  (m.find? (fun p => p.1 = k)).map (·.2)

/-- Models `map.has(k)` -/
def jsMapHas {κ α : Type} [DecidableEq κ] (m : List (κ × α)) (k : κ) : Bool :=
  m.any (fun p => p.1 = k)

/-- Models `map.set(k, v)` -/
def jsMapSet {κ α : Type} [DecidableEq κ] (m : List (κ × α)) (k : κ) (v : α) : List (κ × α) :=
  if jsMapHas m k then m.map (fun p => if p.1 = k then (k, v) else p) else m ++ [(k, v)]

/-- Models `map.delete(k)` -/
def jsMapDelete {κ α : Type} [DecidableEq κ] (m : List (κ × α)) (k : κ) : List (κ × α) :=
  m.filter (fun p => ¬ p.1 = k)

/-- The keys of a JS map, in iteration order (`Array.from(map.keys())`). -/
def jsMapKeys {κ α : Type} (m : List (κ × α)) : List κ := m.map Prod.fst

/-! ## JavaScript string helpers -/

/-- Models `str.includes(sub)`: substring containment. -/
def jsIncludes (s sub : String) : Bool :=
  let cs := s.toList
  let ss := sub.toList
  (List.range (cs.length + 1)).any (fun i => (cs.drop i).take ss.length == ss)

/-- A regex word character (`\w` = `[A-Za-z0-9_]`). -/
def isWordChar (c : Char) : Bool :=
  (('a' ≤ c && c ≤ 'z') || ('A' ≤ c && c ≤ 'Z') || ('0' ≤ c && c ≤ '9') || c = '_')

/-- Whether a `\b` word boundary sits between an optional previous character
and an optional next character (a missing character counts as non-word). -/
def boundaryBetween (prev next : Option Char) : Bool :=
  ((prev.map isWordChar).getD false) != ((next.map isWordChar).getD false)

/-- Test of the regex `\bw\b` against `s`: some occurrence of `w` in `s`
has a word boundary on each side. -/
def jsWordBoundaryTest (w s : String) : Bool :=
  let cs := s.toList
  let ws := w.toList
  (List.range (cs.length + 1)).any (fun i =>
    (cs.drop i).take ws.length == ws &&
    boundaryBetween (if i = 0 then none else cs.get? (i - 1)) ws.head? &&
    boundaryBetween ws.getLast? (cs.get? (i + ws.length)))

/-- Test of an alternation `\b(w1|w2|...)\b` against `s`. -/
def jsWordAlternationTest (ws : List String) (s : String) : Bool :=
  ws.any (fun w => jsWordBoundaryTest w s)

/-- Models `str.toLowerCase()` (ASCII, which covers every string the router inspects). -/
def jsToLower (s : String) : String := String.mk (s.toList.map Char.toLower)

/-- Models `feature.split('.', 2)` preceded by `feature.includes('.')`: the
component before the first dot and the component between the first and
second dots, or `none` when the string holds no dot. -/
def dotSplit2 (s : String) : Option (String × String) :=
  let cs := s.toList
  if cs.contains '.' then
    let parent := cs.takeWhile (fun c => ¬ c = '.')
    let rest := (cs.dropWhile (fun c => ¬ c = '.')).drop 1
    some (String.mk parent, String.mk (rest.takeWhile (fun c => ¬ c = '.')))
  else none

/-- Models `[...new Set(l)]`: deduplication keeping first occurrences in order. -/
def jsDedup (l : List String) : List String :=
  l.foldl (fun acc x => if acc.contains x then acc else acc ++ [x]) []

/-- The start indices of a JS loop `for (i = 0; i < len; i += step)`.
`step = 0` (which would not terminate in JS) yields the empty list. -/
def chunkStarts (step len : Nat) : List Nat :=
  if step = 0 then [] else (List.range ((len + step - 1) / step)).map (· * step)

/-- Slicing a list into consecutive chunks of size `step`
(`l.slice(i, i + step)` for each loop index `i`). -/
def jsChunks {α : Type} (step : Nat) (l : List α) : List (List α) :=
  (chunkStarts step l.length).map (fun i => (l.drop i).take step)

/-- Models `arr.join(sep)` -/
def jsJoin (sep : String) (l : List String) : String :=
  match l with
  | [] => ""
  | x :: xs => xs.foldl (fun acc y => acc ++ sep ++ y) x

/-- Truthiness of an optional string (`undefined`, `null` and `""` are falsy). -/
def strTruthy (o : Option String) : Bool :=
  match o with
  | none => false
  | some s => ¬ s = ""

/-- Models `a || b` on strings where absent/empty is falsy. -/
def jsOrString (o : Option String) (dflt : String) : String :=
  match o with
  | none => dflt
  | some s => if s = "" then dflt else s


/-- Stable insertion of `x` after every element `y` with `le y x`. -/
def stableInsert {α : Type} (le : α → α → Bool) (x : α) : List α → List α
  | [] => [x]
  | y :: ys => if le y x then y :: stableInsert le x ys else x :: y :: ys

/-- A stable sort modelling `Array.prototype.sort(comparator)`: for the
consistent comparators this code base uses, ECMAScript pins the result to
the unique stable sorted order, which stable insertion sort produces. -/
def jsSortBy {α : Type} (le : α → α → Bool) (l : List α) : List α :=
  l.foldl (fun sorted x => stableInsert le x sorted) []

/-! ## Capability model (`AIAgentAdapter`)

`CapabilityProfile` mirrors the zod `AdapterCapabilitiesSchema`: the four
core fields, the optional `subAgents` object (absent ⇔ the key is missing
from the capability object) and the `features` record mapping names to a
boolean or a detailed entry.  Property lookups model own properties of
such schema-conformant objects; prototype-inherited members of JS objects
are outside the model. -/

structure SubAgentsCaps where
  supported : Bool
  maxConcurrent : Option Nat
  delegationTypes : Option (List String)
deriving DecidableEq, Repr

structure FeatureConfigVal where
  maxConcurrent : Option Nat
deriving DecidableEq, Repr

inductive FeatureValue where
  | bool (b : Bool)
  | detailed (enabled : Bool) (config : Option FeatureConfigVal)
deriving DecidableEq, Repr

structure CapabilityProfile where
  maxContextTokens : Nat
  supportedLanguages : List String
  multiFile : Bool
  streaming : Bool
  subAgents : Option SubAgentsCaps
  features : List (String × FeatureValue)
deriving DecidableEq, Repr

/-- Truthiness of a `features` record entry (`Boolean(featureValue)`):
booleans coerce to themselves, object entries are truthy. -/
def featureValueTruthy (v : FeatureValue) : Bool :=
  match v with
  | .bool b => b
  | .detailed _ _ => true

/-- Models `child in array && Boolean(array[child])` for a JS string array:
the own keys of an array are its canonical decimal indices and `length`. -/
def jsArrayChildTruthy (l : List String) (child : String) : Bool :=
  if child = "length" then ¬ l.length = 0
  else (List.range l.length).any (fun j =>
    toString j = child &&
    (match l.get? j with
     | some s => ¬ s = ""
     | none => false))

/-- Models `child in subAgentsObject && Boolean(subAgentsObject[child])`. -/
def subAgentsChildTruthy (sa : SubAgentsCaps) (child : String) : Bool :=
  if child = "supported" then sa.supported
  else if child = "maxConcurrent" then
    match sa.maxConcurrent with
    | some n => ¬ n = 0
    | none => false
  else if child = "delegationTypes" then sa.delegationTypes.isSome
  else false

/-- Models `AIAgentAdapter.supportsFeature(feature)`: (1) top-level capability key,
coerced with `Boolean`; (2) entry of the `features` record (a boolean is
returned as is, an object yields `enabled || false`); (3) a dotted
`parent.child` path resolved against the top-level value. -/
def supportsFeature (c : CapabilityProfile) (feature : String) : Bool :=
  if feature = "maxContextTokens" then ¬ c.maxContextTokens = 0
  else if feature = "supportedLanguages" then true
  else if feature = "multiFile" then c.multiFile
  else if feature = "streaming" then c.streaming
  else if feature = "subAgents" && c.subAgents.isSome then true
  else if feature = "features" then true
  else
    match jsMapGet c.features feature with
    | some (.bool b) => b
    | some (.detailed enabled _) => enabled
    | none =>
      match dotSplit2 feature with
      | none => false
      | some (parent, child) =>
        if parent = "supportedLanguages" then jsArrayChildTruthy c.supportedLanguages child
        else if parent = "subAgents" then
          match c.subAgents with
          | some sa => subAgentsChildTruthy sa child
          | none => false
        else if parent = "features" then
          match jsMapGet c.features child with
          | some v => featureValueTruthy v
          | none => false
        else false

/-- Models `AIAgentAdapter.getFeatureConfig(feature)`: the `config` object of a
detailed `features` entry, `null` for booleans, absent entries or entries
without a truthy `config`. -/
def getFeatureConfig (c : CapabilityProfile) (feature : String) : Option FeatureConfigVal :=
  match jsMapGet c.features feature with
  | some (.detailed _ (some cfg)) => some cfg
  | _ => none

/-! ## Adapter registry (`AdapterRegistry`) -/

/-- An adapter instance as the registry sees it: its own `name` field, its
reported `apiVersion` and its capability profile (from which
`supportsFeature` is derived, as in the `AIAgentAdapter` base class). -/
structure RegAdapter where
  name : String
  apiVersion : String
  caps : CapabilityProfile
deriving DecidableEq, Repr

structure MetricsRecord where
  totalExecutions : Nat
  totalDuration : Nat
  failures : Nat
  avgDuration : Rat
  successRate : Rat
  lastUpdated : Option Nat
deriving DecidableEq, Repr

/-- The record `getAdapterMetrics` returns when the key is absent. -/
def defaultMetricsRecord : MetricsRecord :=
  { totalExecutions := 0, totalDuration := 0, failures := 0,
    avgDuration := 0, successRate := 1, lastUpdated := none }

/-- A value of the registry's `_metrics` map.  `registerAdapter` stores an
empty `Map` under the bare adapter name (`initMap`); `recordMetrics` stores
a stats record under `name:version`.  `recordMetrics` hitting an `initMap`
entry would set expando fields on the `Map` producing `NaN` values; that
state is modelled as `corrupt` (all its numeric fields are falsy). -/
inductive MetricsEntry where
  | initMap
  | record (r : MetricsRecord)
  | corrupt
deriving DecidableEq, Repr

/-- Truthiness of `metrics.avgDuration` (`0`, `undefined` and `NaN` are falsy). -/
def avgDurationTruthy (e : MetricsEntry) : Bool :=
  match e with
  | .record r => ¬ r.avgDuration = 0
  | .initMap => false
  | .corrupt => false

/-- Models `metrics.avgDuration` as a rational, on entries where it is truthy. -/
def metricsAvg (e : MetricsEntry) : Rat :=
  match e with
  | .record r => r.avgDuration
  | _ => 0

structure Registry where
  adapters : List (String × List (String × RegAdapter))
  defaults : List (String × String)
  metrics : List (String × MetricsEntry)
deriving Repr

def emptyRegistry : Registry := ⟨[], [], []⟩

/-- One call against the registry's mutating API.  `register` carries the
optional explicit version and the `setAsDefault` flag; `record` carries the
`duration`/`failed` metrics payload and the current time. -/
inductive RegOp where
  | register (name : String) (adapter : RegAdapter) (version : Option String) (setAsDefault : Bool)
  | setDefault (name : String) (version : String)
  | unregister (name : String) (version : Option String)
  | record (name : String) (version : String) (duration : Nat) (failed : Bool) (now : Nat)

/-- Models `registerAdapter(name, adapter, version, setAsDefault)`.  A falsy name
throws before any mutation, so the state is returned unchanged. -/
def registerAdapter (st : Registry) (name : String) (adapter : RegAdapter)
    (version : Option String) (setAsDefault : Bool) : Registry :=
  if name = "" then st
  else
    let adapterVersion := jsOrString version adapter.apiVersion
    let versionMap := (jsMapGet st.adapters name).getD []
    let versionMap := jsMapSet versionMap adapterVersion adapter
    { adapters := jsMapSet st.adapters name versionMap,
      defaults :=
        if setAsDefault || ! jsMapHas st.defaults name then
          jsMapSet st.defaults name adapterVersion
        else st.defaults,
      metrics :=
        if jsMapHas st.metrics name then st.metrics
        else jsMapSet st.metrics name .initMap }

/-- Models `setDefaultVersion(name, version)`: throws (state unchanged) when the
name or version is not registered. -/
def setDefaultVersion (st : Registry) (name version : String) : Registry :=
  match jsMapGet st.adapters name with
  | none => st
  | some versionMap =>
    if jsMapHas versionMap version then
      { st with defaults := jsMapSet st.defaults name version }
    else st

/-- Models `unregisterAdapter(name, version)`: with a truthy version, delete that
version, dropping the whole name (and its default) when no versions remain
and repointing the default at the first remaining version when the default
was removed; with no (or a falsy) version, drop every version of the name. -/
def unregisterAdapter (st : Registry) (name : String) (version : Option String) : Registry :=
  if ! jsMapHas st.adapters name then st
  else if strTruthy version then
    let v := version.getD ""
    let versionMap := (jsMapGet st.adapters name).getD []
    let versionMap := jsMapDelete versionMap v
    if versionMap.isEmpty then
      { st with adapters := jsMapDelete st.adapters name,
                defaults := jsMapDelete st.defaults name }
    else
      { st with adapters := jsMapSet st.adapters name versionMap,
                defaults :=
                  if jsMapGet st.defaults name = some v then
                    match jsMapKeys versionMap with
                    | v0 :: _ => jsMapSet st.defaults name v0
                    | [] => st.defaults
                  else st.defaults }
  else
    { st with adapters := jsMapDelete st.adapters name,
              defaults := jsMapDelete st.defaults name }

/-- Models `recordMetrics(name, version, metrics)`: accumulate under the key
`name + ":" + version` and recompute the derived averages. -/
def recordMetrics (st : Registry) (name version : String) (duration : Nat)
    (failed : Bool) (now : Nat) : Registry :=
  let key := name ++ ":" ++ version
  let entry :=
    match jsMapGet st.metrics key with
    | none => MetricsEntry.record
        { totalExecutions := 0, totalDuration := 0, failures := 0,
          avgDuration := 0, successRate := 1, lastUpdated := none }
    | some e => e
  match entry with
  | .record r =>
    let te := r.totalExecutions + 1
    let td := r.totalDuration + duration
    let f := r.failures + (if failed then 1 else 0)
    { st with metrics := jsMapSet st.metrics key (.record
        { totalExecutions := te, totalDuration := td, failures := f,
          avgDuration := ratDiv (td : Rat) (te : Rat),
          successRate := ratDiv ((te : Rat) - (f : Rat)) (te : Rat),
          lastUpdated := some now }) }
  | _ => { st with metrics := jsMapSet st.metrics key .corrupt }

/-- One registry API call as a state transformer. -/
def applyRegOp (st : Registry) (op : RegOp) : Registry :=
  match op with
  | .register name adapter version setAsDefault =>
      registerAdapter st name adapter version setAsDefault
  | .setDefault name version => setDefaultVersion st name version
  | .unregister name version => unregisterAdapter st name version
  | .record name version duration failed now =>
      recordMetrics st name version duration failed now

/-- A registry evolved from empty by a sequence of API calls. -/
def applyRegOps (ops : List RegOp) : Registry := ops.foldl applyRegOp emptyRegistry

/-- Models `getAdapterMetrics(name, version)`: the stored entry under
`name + ":" + version`, or the default record when absent. -/
def getAdapterMetrics (st : Registry) (name version : String) : MetricsEntry :=
  (jsMapGet st.metrics (name ++ ":" ++ version)).getD (.record defaultMetricsRecord)

/-! ### Capability scoring (`_calculateCapabilityScore`) -/

structure Requirements where
  features : Option (List String)
  minContextTokens : Nat
  languages : Option (List String)
  multiFile : Bool
  streaming : Bool
  subAgents : Bool
deriving DecidableEq, Repr

/-- The mutable locals of `_calculateCapabilityScore`. -/
structure ScoreState where
  score : Rat
  requiredCount : Nat
  matchedCount : Nat
deriving DecidableEq, Repr

/-- One iteration of the required-features loop: +10 per supported feature. -/
def featureStep (caps : CapabilityProfile) (st : ScoreState) (f : String) : ScoreState :=
  let st := { st with requiredCount := st.requiredCount + 1 }
  if supportsFeature caps f then
    { st with matchedCount := st.matchedCount + 1, score := ratAdd st.score 10 }
  else st

/-- The `requirements.features` loop (skipped when the field is absent). -/
def featurePhase (caps : CapabilityProfile) (features : Option (List String))
    (st : ScoreState) : ScoreState :=
  match features with
  | none => st
  | some fs => fs.foldl (featureStep caps) st

/-- The context-window check: +5 plus a headroom bonus of
`min(ratio - 1, 5)`.  A zero requirement is falsy and skips the check. -/
def contextPhase (caps : CapabilityProfile) (minContextTokens : Nat)
    (st : ScoreState) : ScoreState :=
  if minContextTokens = 0 then st
  else
    let st := { st with requiredCount := st.requiredCount + 1 }
    if caps.maxContextTokens ≥ minContextTokens then
      let ratio := ratDiv (caps.maxContextTokens : Rat) (minContextTokens : Rat)
      { st with matchedCount := st.matchedCount + 1,
                score := ratAdd (ratAdd st.score 5) (ratMin (ratSub ratio 1) 5) }
    else st

/-- The language-support check: +5 and a category match on full coverage,
a fractional `(matched/required) * 5` without a category match otherwise. -/
def langPhase (caps : CapabilityProfile) (languages : Option (List String))
    (st : ScoreState) : ScoreState :=
  match languages with
  | none => st
  | some ls =>
    let st := { st with requiredCount := st.requiredCount + 1 }
    let requiredLangs := jsDedup ls
    let matchingLangs := requiredLangs.filter (fun l => caps.supportedLanguages.contains l)
    if matchingLangs.length = requiredLangs.length then
      { st with matchedCount := st.matchedCount + 1, score := ratAdd st.score 5 }
    else if 0 < matchingLangs.length then
      let frac := ratMul (ratDiv (matchingLangs.length : Rat) (requiredLangs.length : Rat)) 5
      { st with score := ratAdd st.score frac }
    else st

/-- The explicit capability checks table (`req`, `cap`, `points`). -/
def capabilityChecks (r : Requirements) : List (Bool × String × Rat) :=
  [(r.multiFile, "multiFile", 3), (r.streaming, "streaming", 2),
   (r.subAgents, "subAgents.supported", 5)]

/-- One explicit capability check. -/
def capabilityCheckStep (caps : CapabilityProfile) (st : ScoreState)
    (c : Bool × String × Rat) : ScoreState :=
  if c.1 then
    let st := { st with requiredCount := st.requiredCount + 1 }
    if supportsFeature caps c.2.1 then
      { st with matchedCount := st.matchedCount + 1, score := ratAdd st.score c.2.2 }
    else st
  else st

/-- The explicit capability checks loop. -/
def capabilityChecksPhase (caps : CapabilityProfile) (r : Requirements)
    (st : ScoreState) : ScoreState :=
  (capabilityChecks r).foldl (capabilityCheckStep caps) st

/-- The final state of `_calculateCapabilityScore`'s locals. -/
def calculateCapabilityState (caps : CapabilityProfile) (r : Requirements) : ScoreState :=
  capabilityChecksPhase caps r
    (langPhase caps r.languages
      (contextPhase caps r.minContextTokens
        (featurePhase caps r.features { score := 0, requiredCount := 0, matchedCount := 0 })))

/-- Models `_calculateCapabilityScore(adapter, requirements)`: the accumulated
score, forced to `0` when some required category went unmatched. -/
def calculateCapabilityScore (caps : CapabilityProfile) (r : Requirements) : Rat :=
  let st := calculateCapabilityState caps r
  if 0 < st.requiredCount ∧ st.matchedCount < st.requiredCount then 0 else st.score

/-! ### Matching and selection -/

structure AdapterMatch where
  name : String
  version : String
  adapter : RegAdapter
  score : Rat
deriving DecidableEq, Repr

/-- The sort comparator `(a, b) => b.score - a.score` as a total order test. -/
def matchDescByScore (a b : AdapterMatch) : Bool := decide (b.score ≤ a.score)

/-- Models `findMatchingAdapters(requirements)`: collect every (name, version)
pair with positive score and sort descending by score. -/
def findMatchingAdapters (reg : Registry) (r : Requirements) : List AdapterMatch :=
  jsSortBy matchDescByScore
    ((reg.adapters.map (fun p => p.2.filterMap (fun q =>
      let score := calculateCapabilityScore q.2.caps r
      if 0 < score then some (AdapterMatch.mk p.1 q.1 q.2 score) else none))).flatten)

structure Preferences where
  preferredAdapters : Option (List String)
  considerPerformance : Bool
  fallbackStrategies : List String
deriving Repr

/-- The 1.5× score boost for preferred adapters. -/
def applyPreferredBoost (prefs : Preferences) (m : AdapterMatch) : AdapterMatch :=
  if (prefs.preferredAdapters.getD []).contains m.name then
    { m with score := ratMul m.score (mkRat 3 2) }
  else m

/-- The performance boost `1 + min(0.1 * (1000 / avgDuration), 0.3)`,
applied only when `metrics.avgDuration` is truthy. -/
def applyPerformanceBoost (reg : Registry) (m : AdapterMatch) : AdapterMatch :=
  let metrics := getAdapterMetrics reg m.name m.version
  if avgDurationTruthy metrics then
    let speedBoost := ratDiv 1000 (metricsAvg metrics)
    let boost := ratAdd 1 (ratMin (ratMul speedBoost (mkRat 1 10)) (mkRat 3 10))
    { m with score := ratMul m.score boost }
  else m

/-- Models `selectOptimalAdapter(requirements, preferences)`: preference boost and
re-sort when `preferredAdapters` is present, performance boost and re-sort
when `considerPerformance`, then the top entry. -/
def selectOptimalAdapter (reg : Registry) (r : Requirements)
    (prefs : Preferences) : Option AdapterMatch :=
  let ms := findMatchingAdapters reg r
  if ms.isEmpty then none
  else
    let ms :=
      match prefs.preferredAdapters with
      | none => ms
      | some _ => jsSortBy matchDescByScore (ms.map (applyPreferredBoost prefs))
    let ms :=
      if prefs.considerPerformance then
        jsSortBy matchDescByScore (ms.map (applyPerformanceBoost reg))
      else ms
    ms.head?

/-! ## Tasks

The task shape consumed by the router and the orchestration engine:
`id`, `type`, `description`, an optional `context` with `files`,
`content` and `code`, per-vendor `extensions`, the optional explicit
`executionStrategy`, the `complexity` and `streaming` hints, and the
`role`/`focus` fields added by sub-agent decomposition. -/

structure TaskContext where
  files : Option (List String)
  content : Option String
  code : Option String
deriving DecidableEq, Repr

structure VendorExt where
  subAgents : Bool
  streaming : Bool
  features : Option (List String)
  executionStrategy : Option String
deriving DecidableEq, Repr

structure Task where
  id : String
  type : String
  objective : String
  description : String
  complexity : Option String
  streaming : Bool
  context : Option TaskContext
  extensions : List (String × VendorExt)
  executionStrategy : Option String
  role : Option String := none
  focus : Option String := none
deriving DecidableEq, Repr

/-- Models `task.context?.files?.length || 0` -/
def taskFilesCount (t : Task) : Nat :=
  match t.context with
  | some ctx => (ctx.files.map List.length).getD 0
  | none => 0

/-- Models `task.context?.files`, flattened. -/
def taskFiles (t : Task) : Option (List String) := t.context.bind (·.files)

/-! ## Task router (`TaskRouter`) -/

/-- The static task-type → feature-set table of `analyzeTask`. -/
def taskTypeFeatures : List (String × List String) :=
  [("comprehension", ["comprehension", "explanation"]),
   ("generation", ["generation", "refactoring"]),
   ("validation", ["validation", "testing"]),
   ("exploration", ["exploration", "debugging"]),
   ("refactoring", ["refactoring", "generation"]),
   ("testing", ["testing", "generation"]),
   ("documentation", ["documentation", "generation"])]

/-- The `languagePatterns` word-boundary alternations, in object order. -/
def languagePatterns : List (String × List String) :=
  [("javascript", ["javascript", "js", "node", "npm"]),
   ("typescript", ["typescript", "ts", "tsx"]),
   ("python", ["python", "py", "pip"]),
   ("java", ["java", "maven", "gradle"]),
   ("go", ["go", "golang"]),
   ("rust", ["rust", "cargo"]),
   ("c++", ["c++", "cpp"])]

/-- Models `_estimateContextSize(context)`: 500 tokens per file plus one token per
four characters of `content` and `code`, rounded up. -/
def estimateContextSize (ctx : TaskContext) : Nat :=
  ((ctx.files.map List.length).getD 0) * 500 +
    (((ctx.content.map String.length).getD 0) + 3) / 4 +
    (((ctx.code.map String.length).getD 0) + 3) / 4

/-- Models `analyzeTask(task)`: the inferred requirement profile. -/
def analyzeTask (t : Task) : Requirements :=
  let typeFeatures := (jsMapGet taskTypeFeatures t.type).getD []
  let minContextTokens :=
    match t.context with
    | some ctx => estimateContextSize ctx
    | none => 0
  let multiFile :=
    match t.context with
    | some ctx =>
      match ctx.files with
      | some fs => decide (1 < fs.length)
      | none => false
    | none => false
  let description := jsToLower t.description
  let languages := languagePatterns.filterMap (fun p =>
    if jsWordAlternationTest p.2 description then some p.1 else none)
  let streaming := jsIncludes description "stream" || jsIncludes description "real-time"
  let subAgents := jsIncludes description "delegate" || jsIncludes description "sub-agent" ||
    jsIncludes description "parallel" || jsIncludes description "distribute"
  let extFeatures := t.extensions.foldl (fun acc p => acc ++ (p.2.features.getD [])) []
  let streaming := t.extensions.foldl (fun acc p => acc || p.2.streaming) streaming
  let subAgents := t.extensions.foldl (fun acc p => acc || p.2.subAgents) subAgents
  { features := some (jsDedup (typeFeatures ++ extFeatures)),
    minContextTokens := minContextTokens,
    languages := some languages,
    multiFile := multiFile,
    streaming := streaming,
    subAgents := subAgents }

/-- String order used to model JS `Array.prototype.sort()` on strings. -/
def strAscending (a b : String) : Bool := decide (a ≤ b)

/-- The normalized routing cache key produced by `_generateCacheKey`:
the JSON payload is modelled structurally (`JSON.stringify` is injective
on this shape). -/
structure CacheKey where
  type : String
  features : List String
  contextSize : Nat
  languages : List String
  multiFile : Bool
  streaming : Bool
  subAgents : Bool
deriving DecidableEq, Repr

/-- Models `_generateCacheKey(task)`: sorted features and languages, context size
bucketed to the nearest 1000 tokens, plus the boolean flags. -/
def generateCacheKey (t : Task) : CacheKey :=
  let r := analyzeTask t
  { type := t.type,
    features := jsSortBy strAscending (r.features.getD []),
    contextSize := r.minContextTokens / 1000,
    languages := jsSortBy strAscending (r.languages.getD []),
    multiFile := r.multiFile,
    streaming := r.streaming,
    subAgents := r.subAgents }

structure RoutingDecision where
  adapter : RegAdapter
  adapterName : String
  adapterVersion : String
  strategy : String
  requirements : Requirements
  score : Rat
  timestamp : Nat
deriving DecidableEq, Repr

structure RouterState where
  routingCache : List (CacheKey × RoutingDecision)
deriving Repr

/-- Models `this._cacheTTL = 5 * 60 * 1000` -/
def cacheTTL : Nat := 5 * 60 * 1000

/-- Models `_getCachedRoute(key)`: a valid entry is returned as is; an expired
entry is deleted and reported as a miss. -/
def getCachedRoute (st : RouterState) (key : CacheKey) (now : Nat) :
    Option RoutingDecision × RouterState :=
  match jsMapGet st.routingCache key with
  | none => (none, st)
  | some cached =>
    if now - cached.timestamp > cacheTTL then
      (none, { routingCache := jsMapDelete st.routingCache key })
    else (some cached, st)

/-- Models `_cacheRoute(key, route)`: insert, then evict the 100 oldest entries
(by timestamp, stable) once the cache exceeds 1000 entries. -/
def cacheRoute (st : RouterState) (key : CacheKey) (route : RoutingDecision) : RouterState :=
  let cache := jsMapSet st.routingCache key route
  if 1000 < cache.length then
    let entries := jsSortBy (fun a b => decide (a.2.timestamp ≤ b.2.timestamp)) cache
    { routingCache := (entries.take 100).foldl (fun c e => jsMapDelete c e.1) cache }
  else { routingCache := cache }

/-- The strategy-selection loop of `_selectStrategy` over
`preferences.fallbackStrategies`. -/
def selectStrategyLoop (caps : CapabilityProfile) (r : Requirements) :
    List String → Option String
  | [] => none
  | s :: rest =>
    if s = "subAgents" then
      if r.subAgents && supportsFeature caps "subAgents" then some "subAgents"
      else selectStrategyLoop caps r rest
    else if s = "parallel" then
      if supportsFeature caps "parallelExecution" then some "parallel"
      else selectStrategyLoop caps r rest
    else if s = "streaming" then
      if r.streaming && supportsFeature caps "streaming" then some "streaming"
      else selectStrategyLoop caps r rest
    else if s = "sequential" then some "sequential"
    else selectStrategyLoop caps r rest

/-- Models `_selectStrategy(adapter, task, requirements)`: a truthy vendor-extension
`executionStrategy` wins, otherwise the fallback loop with final fallback
`"sequential"`. -/
def selectStrategy (adapter : RegAdapter) (t : Task) (r : Requirements)
    (prefs : Preferences) : String :=
  let vendorStrategy := (jsMapGet t.extensions adapter.name).bind (·.executionStrategy)
  if strTruthy vendorStrategy then vendorStrategy.getD ""
  else (selectStrategyLoop adapter.caps r prefs.fallbackStrategies).getD "sequential"

inductive RouterEvent where
  | cacheHit (taskId : String) (adapterName : String)
  | routed (taskId : String) (taskType : String) (adapterName : String)
      (version : String) (strategy : String)
deriving DecidableEq, Repr

/-- Models `route(task)`: cache lookup, requirement analysis, optimal-adapter
selection, strategy choice, caching and events.  The clock is passed in as
`now`; the returned triple is (outcome, updated router state, emitted
events). -/
def route (reg : Registry) (prefs : Preferences) (st : RouterState) (t : Task)
    (now : Nat) : Except String RoutingDecision × RouterState × List RouterEvent :=
  let key := generateCacheKey t
  match getCachedRoute st key now with
  | (some cached, st') => (.ok cached, st', [.cacheHit t.id cached.adapter.name])
  | (none, st') =>
    let r := analyzeTask t
    match selectOptimalAdapter reg r prefs with
    | none => (.error "No suitable adapter found for task requirements", st', [])
    | some sel =>
      let strat := selectStrategy sel.adapter t r prefs
      let d : RoutingDecision :=
        { adapter := sel.adapter, adapterName := sel.name, adapterVersion := sel.version,
          strategy := strat, requirements := r, score := sel.score, timestamp := now }
      (.ok d, cacheRoute st' key d, [.routed t.id t.type sel.name sel.version strat])

/-! ## Orchestration strategy engine (`OrchestrationStrategy`)

Asynchrony is modelled deterministically: every adapter call produces a
duration in milliseconds together with its outcome (`Timed`).  Sequential
awaits add durations; a `Promise.all` batch takes the maximum duration of
its members; the timeout race is won by the underlying promise exactly
when its duration is strictly below the timeout. -/

structure Timed (α : Type) where
  dur : Nat
  val : α
deriving DecidableEq, Repr

/-- An execution result as the engine observes it: the fields of adapter
results it reads (`output`, `artifacts`) plus the fields its aggregation
steps write. -/
structure JSResult where
  taskId : Option String
  status : Option String
  output : String
  artifacts : List String
  batchCount : Option Nat
  parallelSuccessful : Option Nat
  parallelFailed : Option Nat
  parallelFailures : List (String × String)
deriving DecidableEq, Repr

abbrev ExecOutcome := Timed (Except String JSResult)

/-- The sub-agent execution plan handed to `adapter.executeWithSubAgents`
(the `coordinator`/`agents` entries are derived views of `subtasks`). -/
structure SubAgentPlan where
  orchestrationMode : String
  subtasks : List Task
deriving Repr

/-- The adapter as the orchestration engine consumes it: a capability
profile (from which `supportsFeature`/`getFeatureConfig` derive), the
`executeTask` entry point, and the optional native sub-agent and streaming
entry points (`none` models an adapter without that method). -/
structure AdapterModel where
  name : String
  caps : CapabilityProfile
  executeTask : Task → ExecOutcome
  executeWithSubAgents : Option (SubAgentPlan → ExecOutcome)
  executeWithStreaming : Option (Task → ExecOutcome)

/-- Models `execute`'s options object: `timeout = 0` and `batchSize = 0` model the
falsy absent overrides; `onChunk` records whether a chunk callback was
supplied. -/
structure ExecOptions where
  strategies : Option (List String)
  timeout : Nat
  batchSize : Nat
  orchestrationMode : Option String
  onChunk : Bool
deriving Repr

/-- The default options value (`execute(task, options = \x7b\x7d)`). -/
def defaultExecOptions : ExecOptions :=
  { strategies := none, timeout := 0, batchSize := 0,
    orchestrationMode := none, onChunk := false }

/-- The default fallback chain. -/
def defaultStrategies : List String :=
  ["subAgents", "parallel", "streaming", "batched", "sequential"]

/-- Models `this.timeouts`; an unknown strategy name has no entry (modelled as 0,
never consulted because unknown strategies are unavailable in the chain). -/
def strategyTimeouts (s : String) : Nat :=
  if s = "subAgents" then 300000
  else if s = "parallel" then 180000
  else if s = "streaming" then 120000
  else if s = "batched" then 90000
  else if s = "sequential" then 60000
  else 0

structure StrategyAttempt where
  strategy : String
  status : String
  reason : Option String
  error : Option String
  duration : Nat
deriving DecidableEq, Repr

def skippedAttempt (s reason : String) : StrategyAttempt :=
  { strategy := s, status := "skipped", reason := some reason, error := none, duration := 0 }

def successAttempt (s : String) (d : Nat) : StrategyAttempt :=
  { strategy := s, status := "success", reason := none, error := none, duration := d }

def failedAttempt (s err : String) (d : Nat) : StrategyAttempt :=
  { strategy := s, status := "failed", reason := none, error := some err, duration := d }

/-- What `execute` resolves with.  A chain success spreads the result and
adds `strategy`, `attempts` and `totalDuration`; the explicit-strategy path
returns the raw result, so those three fields stay absent (`none`). -/
structure ExecReturn where
  result : JSResult
  strategy : Option String
  attempts : Option (List StrategyAttempt)
  totalDuration : Option Nat
deriving DecidableEq, Repr

/-- The error thrown when every strategy failed, carrying the attempt
trail and the total duration. -/
structure ExhaustedError where
  message : String
  attempts : List StrategyAttempt
  duration : Nat
deriving DecidableEq, Repr

/-- Models `_getExplicitStrategy(task)`: vendor extension first, then the task's
own `executionStrategy`, with JS truthiness on both. -/
def getExplicitStrategy (A : AdapterModel) (t : Task) : Option String :=
  let vendor := (jsMapGet t.extensions A.name).bind (·.executionStrategy)
  if strTruthy vendor then vendor
  else if strTruthy t.executionStrategy then t.executionStrategy
  else none

/-- Models `_isStrategyAvailable(strategy)`. -/
def isStrategyAvailable (A : AdapterModel) (s : String) : Bool :=
  if s = "subAgents" then supportsFeature A.caps "subAgents"
  else if s = "parallel" then supportsFeature A.caps "parallelExecution"
  else if s = "streaming" then supportsFeature A.caps "streaming"
  else if s = "batched" then true
  else if s = "sequential" then true
  else false

/-- Models `_isStrategySuitable(strategy, task)`. -/
def isStrategySuitable (s : String) (t : Task) : Bool :=
  if s = "subAgents" then
    t.complexity = some "high" || 500 < t.description.length || 5 < taskFilesCount t
  else if s = "parallel" then
    2 < taskFilesCount t || t.type = "validation" || t.type = "testing"
  else if s = "streaming" then
    t.type = "generation" || t.streaming || jsIncludes t.description "stream"
  else if s = "batched" then 10 < taskFilesCount t
  else if s = "sequential" then true
  else false

/-- Models `_decomposeForSubAgents(task, maxAgents)`. -/
def decomposeForSubAgents (t : Task) (maxAgents : Nat) : List Task :=
  let subtasks :=
    if t.type = "generation" then
      [{ t with role := some "architect", focus := some "design" },
       { t with role := some "implementer", focus := some "code" },
       { t with role := some "reviewer", focus := some "quality" }]
    else if t.type = "refactoring" then
      [{ t with role := some "analyzer", focus := some "current-state" },
       { t with role := some "refactorer", focus := some "improvements" },
       { t with role := some "validator", focus := some "correctness" }]
    else
      match taskFiles t with
      | some fs =>
        if 1 < fs.length then
          let filesPerAgent := (fs.length + maxAgents - 1) / maxAgents
          (chunkStarts filesPerAgent fs.length).map (fun i =>
            { t with id := t.id ++ "-sub-" ++ toString i,
                     context := some { (t.context.getD ⟨none, none, none⟩) with
                                       files := some ((fs.drop i).take filesPerAgent) } })
        else [t]
      | none => [t]
  subtasks.take maxAgents

/-- Models `_decomposeForParallel(task)`: one subtask per context file when more
than one file is present. -/
def decomposeForParallel (t : Task) : List Task :=
  match taskFiles t with
  | some fs =>
    if 1 < fs.length then
      fs.mapIdx (fun i file =>
        { t with id := t.id ++ "-parallel-" ++ toString i,
                 context := some { (t.context.getD ⟨none, none, none⟩) with
                                   files := some [file] } })
    else [t]
  | none => [t]

/-- Models `_executeSequentially(task, options)`: one direct adapter call. -/
def executeSequentially (A : AdapterModel) (t : Task) : ExecOutcome := A.executeTask t

/-- Models `config.maxConcurrent || dflt` over `getFeatureConfig(...) || \x7b\x7d`. -/
def maxConcurrentOr (cfg : Option FeatureConfigVal) (dflt : Nat) : Nat :=
  match cfg.bind (·.maxConcurrent) with
  | some n => if n = 0 then dflt else n
  | none => dflt

/-- Models `_executeWithSubAgents(task, options)`. -/
def executeWithSubAgentsImpl (A : AdapterModel) (t : Task) (o : ExecOptions) : ExecOutcome :=
  if ¬ supportsFeature A.caps "subAgents" then ⟨0, .error "Sub-agents not supported"⟩
  else
    let maxConcurrent := maxConcurrentOr (getFeatureConfig A.caps "subAgents") 3
    let plan : SubAgentPlan :=
      { orchestrationMode := jsOrString o.orchestrationMode "parallel",
        subtasks := decomposeForSubAgents t maxConcurrent }
    match A.executeWithSubAgents with
    | some f => f plan
    | none => ⟨0, .error "Sub-agent execution not implemented"⟩

/-- An item of a parallel batch after the per-item `.catch` wrapper:
a result, or the captured `(error, task)` pair. -/
inductive ParItem where
  | ok (r : JSResult)
  | err (message : String) (taskId : String)
deriving DecidableEq, Repr

/-- Models `adapter.executeTask(t).catch(err => (\x7b error, task \x7d))`. -/
def catchParallelItem (A : AdapterModel) (tk : Task) : Timed ParItem :=
  match A.executeTask tk with
  | ⟨d, .ok r⟩ => ⟨d, .ok r⟩
  | ⟨d, .error e⟩ => ⟨d, .err e tk.id⟩

/-- The duration of a `Promise.all` batch: its slowest member. -/
def batchDuration (items : List (Timed ParItem)) : Nat :=
  (items.map (·.dur)).foldl max 0

/-- The batched `Promise.all` loop of `_executeInParallel`. -/
def runParallelBatches (A : AdapterModel) (ts : List Task) (maxConcurrent : Nat) :
    Timed (List ParItem) :=
  (jsChunks maxConcurrent ts).foldl
    (fun acc batch =>
      let items := batch.map (catchParallelItem A)
      ⟨acc.dur + batchDuration items, acc.val ++ items.map (·.val)⟩)
    ⟨0, []⟩

/-- Models `_aggregateParallelResults(results, originalTask)`. -/
def aggregateParallelResults (items : List ParItem) (t : Task) : Except String JSResult :=
  let successful := items.filterMap (fun i => match i with | .ok r => some r | .err _ _ => none)
  let failed := items.filterMap (fun i => match i with | .err e tid => some (tid, e) | .ok _ => none)
  if successful.isEmpty then .error "All parallel tasks failed"
  else .ok
    { taskId := some t.id,
      status := some (if failed.isEmpty then "completed" else "partial"),
      output := jsJoin "\n---\n" (successful.map (·.output)),
      artifacts := (successful.map (·.artifacts)).flatten,
      batchCount := none,
      parallelSuccessful := some successful.length,
      parallelFailed := some failed.length,
      parallelFailures := failed }

/-- Models `_executeInParallel(task, options)`. -/
def executeInParallel (A : AdapterModel) (t : Task) (o : ExecOptions) : ExecOutcome :=
  if ¬ supportsFeature A.caps "parallelExecution" then
    ⟨0, .error "Parallel execution not supported"⟩
  else
    let parallelTasks := decomposeForParallel t
    if parallelTasks.length ≤ 1 then executeSequentially A t
    else
      let maxConcurrent := maxConcurrentOr (getFeatureConfig A.caps "parallelExecution") 5
      let run := runParallelBatches A parallelTasks maxConcurrent
      ⟨run.dur, aggregateParallelResults run.val t⟩

/-- Models `_executeWithStreaming(task, options)`: the native streaming entry
point when present, otherwise a plain execution (the simulated chunk
callbacks do not change the result). -/
def executeWithStreamingImpl (A : AdapterModel) (t : Task) (o : ExecOptions) : ExecOutcome :=
  if ¬ supportsFeature A.caps "streaming" then ⟨0, .error "Streaming not supported"⟩
  else
    match A.executeWithStreaming with
    | some f => f { t with streaming := true }
    | none => A.executeTask t

/-- The batch subtask `\x7b...task, id: task.id + "-batch-" + i,
context: \x7b...context, files: slice\x7d\x7d`. -/
def makeBatchTask (t : Task) (fs : List String) (batchSize i : Nat) : Task :=
  { t with id := t.id ++ "-batch-" ++ toString i,
           context := some { (t.context.getD ⟨none, none, none⟩) with
                             files := some ((fs.drop i).take batchSize) } }

/-- The sequential batch loop of `_executeInBatches`; a thrown error
aborts it. -/
def runBatchesSequentially (A : AdapterModel) (batches : List Task) :
    Timed (Except String (List JSResult)) :=
  batches.foldl
    (fun acc b =>
      match acc.val with
      | .error _ => acc
      | .ok rs =>
        match A.executeTask b with
        | ⟨d, .ok r⟩ => ⟨acc.dur + d, .ok (rs ++ [r])⟩
        | ⟨d, .error e⟩ => ⟨acc.dur + d, .error e⟩)
    ⟨0, .ok []⟩

/-- Models `_executeInBatches(task, options)`. -/
def executeInBatches (A : AdapterModel) (t : Task) (o : ExecOptions) : ExecOutcome :=
  let batchSize := if o.batchSize = 0 then 5 else o.batchSize
  match taskFiles t with
  | none => executeSequentially A t
  | some fs =>
    if fs.length ≤ batchSize then executeSequentially A t
    else
      let batches := (chunkStarts batchSize fs.length).map (makeBatchTask t fs batchSize)
      let run := runBatchesSequentially A batches
      match run.val with
      | .error e => ⟨run.dur, .error e⟩
      | .ok rs => ⟨run.dur, .ok
          { taskId := some t.id, status := some "completed",
            output := jsJoin "\n---\n" (rs.map (·.output)),
            artifacts := (rs.map (·.artifacts)).flatten,
            batchCount := some rs.length,
            parallelSuccessful := none, parallelFailed := none, parallelFailures := [] }⟩

/-- Models `_executeStrategy(strategy, task, options)`: the dispatch switch whose
`default` case (any unknown name) executes sequentially. -/
def executeStrategy (A : AdapterModel) (s : String) (t : Task) (o : ExecOptions) : ExecOutcome :=
  if s = "subAgents" then executeWithSubAgentsImpl A t o
  else if s = "parallel" then executeInParallel A t o
  else if s = "streaming" then executeWithStreamingImpl A t o
  else if s = "batched" then executeInBatches A t o
  else executeSequentially A t

/-- Models `_executeWithTimeout(promise, timeout)`: the promise wins the race
exactly when its duration is strictly below the timeout. -/
def executeWithTimeout (r : ExecOutcome) (timeout : Nat) : ExecOutcome :=
  if r.dur < timeout then r else ⟨timeout, .error "Strategy timeout"⟩

/-- The fallback loop of `execute`: availability check, suitability check,
execution under a per-strategy timeout, with one attempt recorded per
strategy; exhaustion throws the `ExhaustedError`. -/
def chainLoop (A : AdapterModel) (t : Task) (o : ExecOptions) :
    List String → List StrategyAttempt → Nat → Except ExhaustedError ExecReturn
  | [], attempts, elapsed =>
    .error { message := "All execution strategies failed", attempts := attempts, duration := elapsed }
  | s :: rest, attempts, elapsed =>
    if ¬ isStrategyAvailable A s then
      chainLoop A t o rest (attempts ++ [skippedAttempt s "Not available"]) elapsed
    else if ¬ isStrategySuitable s t then
      chainLoop A t o rest (attempts ++ [skippedAttempt s "Not suitable for task"]) elapsed
    else
      let timeout := if o.timeout = 0 then strategyTimeouts s else o.timeout
      let r := executeWithTimeout (executeStrategy A s t o) timeout
      match r.val with
      | .ok res =>
        .ok { result := res, strategy := some s,
              attempts := some (attempts ++ [successAttempt s r.dur]),
              totalDuration := some (elapsed + r.dur) }
      | .error e =>
        chainLoop A t o rest (attempts ++ [failedAttempt s e r.dur]) (elapsed + r.dur)

/-- Models `OrchestrationStrategy.execute(task, options)`: a truthy explicit
strategy is tried first, outside the chain, without availability or
suitability checks and without the timeout race; its success returns the
raw result, its failure falls into the ordinary chain (which never records
the explicit attempt). -/
def execute (A : AdapterModel) (t : Task) (o : ExecOptions) : Except ExhaustedError ExecReturn :=
  let strategies := o.strategies.getD defaultStrategies
  match getExplicitStrategy A t with
  | some es =>
    let r := executeStrategy A es t o
    match r.val with
    | .ok res => .ok { result := res, strategy := none, attempts := none, totalDuration := none }
    | .error _ => chainLoop A t o strategies [] r.dur
  | none => chainLoop A t o strategies [] 0


/-! ## Concrete fixtures used by witnesses and counterexamples -/

/-- A capability profile supporting none of the advanced features. -/
def capsNone : CapabilityProfile :=
  { maxContextTokens := 1000, supportedLanguages := ["javascript"], multiFile := false,
    streaming := false, subAgents := none, features := [] }

/-- A profile whose `subAgents` key holds an object with `supported: false`. -/
def capsSubObjFalse : CapabilityProfile :=
  { capsNone with subAgents := some ⟨false, some 2, none⟩ }

/-- A successful adapter result. -/
def okResult : JSResult :=
  { taskId := none, status := none, output := "done", artifacts := [],
    batchCount := none, parallelSuccessful := none, parallelFailed := none,
    parallelFailures := [] }

/-- An adapter whose every call succeeds instantly, with no advanced
capabilities and no optional entry points. -/
def adapterPlain : AdapterModel :=
  { name := "base-adapter", caps := capsNone,
    executeTask := fun _ => ⟨0, .ok okResult⟩,
    executeWithSubAgents := none, executeWithStreaming := none }

/-- The `adapterPlain` adapter with the `supported: false` sub-agent object. -/
def adapterSubObj : AdapterModel := { adapterPlain with caps := capsSubObjFalse }

/-- A task with `n` context files and no explicit strategy. -/
def mkTaskFiles (n : Nat) : Task :=
  { id := "t1", type := "misc", objective := "obj", description := "short",
    complexity := none, streaming := false,
    context := some ⟨some ((List.range n).map (fun i => "f" ++ toString i)), none, none⟩,
    extensions := [], executionStrategy := none }

/-- The C2 capability profile: everything matched except one language. -/
def capsC2 : CapabilityProfile :=
  { maxContextTokens := 1000, supportedLanguages := ["javascript"], multiFile := true,
    streaming := true, subAgents := some ⟨true, none, none⟩,
    features := [("generation", .bool true)] }

/-- The C2 requirement profile: partial language coverage (1 of 2), every
other category satisfied by `capsC2`. -/
def reqsC2 : Requirements :=
  { features := some ["generation"], minContextTokens := 500,
    languages := some ["javascript", "python"], multiFile := true,
    streaming := true, subAgents := true }

/-- A registry holding only the `capsC2` adapter. -/
def regC2 : Registry :=
  applyRegOps [.register "test-adapter" ⟨"test-adapter", "1.0.0", capsC2⟩ none true]


/-- An adapter that succeeds only slowly: every call takes 10^9 ms, beyond
every per-strategy timeout. -/
def adapterSlow : AdapterModel :=
  { adapterPlain with executeTask := fun _ => ⟨1000000000, .ok okResult⟩ }

/-- A task carrying the unknown explicit strategy name `"weird"`. -/
def taskExplicitWeird : Task := { mkTaskFiles 1 with executionStrategy := some "weird" }

/-- A profile supporting only `parallelExecution` (through the feature map). -/
def capsPar : CapabilityProfile :=
  { capsNone with features := [("parallelExecution", .bool true)] }

/-- An adapter that succeeds on the original task `t1` but fails on every
decomposed subtask (their ids carry a `-parallel-` suffix). -/
def adapterParFail : AdapterModel :=
  { name := "base-adapter", caps := capsPar,
    executeTask := fun tk => if tk.id = "t1" then ⟨0, .ok okResult⟩ else ⟨0, .error "boom"⟩,
    executeWithSubAgents := none, executeWithStreaming := none }

/-- A three-file task with the explicit strategy `"parallel"`. -/
def taskParallel3 : Task := { mkTaskFiles 3 with executionStrategy := some "parallel" }

/-- Decidable shape of a hypothesis on adapter behaviour: the call resolves
instantly and rejects. -/
def isFailedFast (out : ExecOutcome) : Bool :=
  out.dur = 0 &&
    (match out.val with
     | .error _ => true
     | .ok _ => false)


/-- The registry's default-version invariant: the defaults map binds each
name at most once; every default points at a registered name and one of
its registered versions; and every registered name has a nonempty version
map and some default. -/
def RegistryInv (st : Registry) : Prop :=
  (jsMapKeys st.defaults).Nodup ∧
  (∀ name v, jsMapGet st.defaults name = some v →
     ∃ vm, jsMapGet st.adapters name = some vm ∧ v ∈ jsMapKeys vm) ∧
  (∀ name vm, jsMapGet st.adapters name = some vm →
     vm ≠ [] ∧ ∃ v, jsMapGet st.defaults name = some v)

/-- A registry-fixture adapter. -/
def regAdapterW : RegAdapter := ⟨"w-adapter", "1.0.0", capsNone⟩

/-- Register two versions (the first with `makeDefault` false, which still
becomes the default; the second explicitly non-default), then unregister
the default version. -/
def regOpsW : List RegOp :=
  [.register "alpha" regAdapterW none false,
   .register "alpha" { regAdapterW with apiVersion := "2.0.0" } (some "2.0.0") false,
   .unregister "alpha" (some "1.0.0")]


/-- A registration whose bare adapter name equals the metrics key
`"a" + ":" + "1.0.0"` that `getAdapterMetrics("a", "1.0.0")` consults. -/
def regCollideOps : List RegOp := [.register "a:1.0.0" regAdapterW none true]

/-- One registration and one unrelated metrics recording. -/
def regOpsC10 : List RegOp :=
  [.register "a" regAdapterW none true, .record "b" "1.0.0" 5 false 7]

/-- A candidate match for the never-recorded pair `("a", "1.0.0")`. -/
def matchW : AdapterMatch := ⟨"a", "1.0.0", regAdapterW, 5⟩


/-- A registry holding one defaultless-capability adapter, for routing. -/
def regR : Registry :=
  applyRegOps [.register "test-adapter" ⟨"test-adapter", "1.0.0", capsNone⟩ none true]

/-- The preferences object the router constructor builds by default. -/
def defaultPreferences : Preferences :=
  { preferredAdapters := some [], considerPerformance := true,
    fallbackStrategies := ["subAgents", "parallel", "streaming", "sequential"] }

/-- A contextless task to route. -/
def taskR : Task :=
  { id := "r1", type := "zzz", objective := "o", description := "x",
    complexity := none, streaming := false, context := none,
    extensions := [], executionStrategy := none }

/-- The routing decision `route` computes for `taskR` against `regR` at
time 1000. -/
def decisionW : RoutingDecision :=
  { adapter := ⟨"test-adapter", "1.0.0", capsNone⟩, adapterName := "test-adapter",
    adapterVersion := "1.0.0", strategy := "sequential",
    requirements :=
      { features := some [], minContextTokens := 0, languages := some [],
        multiFile := false, streaming := false, subAgents := false },
    score := 5, timestamp := 1000 }

/-- The router state after the first `route` call for `taskR`. -/
def routerStateW : RouterState := ⟨[(generateCacheKey taskR, decisionW)]⟩

/-! ## Association-list lemmas for the JS map model -/

theorem mem_stableInsert {α : Type} (le : α → α → Bool) (x a : α) :
    ∀ (l : List α), a ∈ stableInsert le x l ↔ a = x ∨ a ∈ l := by
  intro l
  induction l with
  | nil => simp [stableInsert]
  | cons y ys ih =>
    unfold stableInsert
    split
    · simp only [List.mem_cons, ih]
      tauto
    · simp

theorem mem_jsSortBy {α : Type} {le : α → α → Bool} {l : List α} {a : α} :
    a ∈ jsSortBy le l ↔ a ∈ l := by
  unfold jsSortBy
  suffices h : ∀ (l acc : List α), a ∈ l.foldl (fun sorted x => stableInsert le x sorted) acc ↔
      a ∈ acc ∨ a ∈ l by
    rw [h l []]
    simp
  intro l
  induction l with
  | nil => simp
  | cons y ys ih =>
    intro acc
    rw [List.foldl_cons, ih, mem_stableInsert]
    simp only [List.mem_cons]
    tauto

theorem keyPred_map_set {κ α : Type} [DecidableEq κ] (m : List (κ × α)) (k k' : κ) (v : α)
    (h : ¬ k' = k) :
    List.find? (fun p => decide (p.1 = k')) (m.map (fun p => if p.1 = k then (k, v) else p)) =
      List.find? (fun p => decide (p.1 = k')) m := by
  induction m with
  | nil => rfl
  | cons q m ih =>
    by_cases hq : q.1 = k
    · rw [List.map_cons, if_pos hq,
        List.find?_cons_of_neg _ (by simp; exact fun hk => h hk.symm),
        List.find?_cons_of_neg _ (by simp [hq]; exact fun hk => h (hk ▸ hq ▸ rfl))]
      exact ih
    · rw [List.map_cons, if_neg hq]
      by_cases hq' : q.1 = k'
      · rw [List.find?_cons_of_pos _ (by simp [hq']), List.find?_cons_of_pos _ (by simp [hq'])]
      · rw [List.find?_cons_of_neg _ (by simp [hq']), List.find?_cons_of_neg _ (by simp [hq'])]
        exact ih

theorem find?_eq_none_of_not_has {κ α : Type} [DecidableEq κ] (m : List (κ × α)) (k : κ)
    (h : jsMapHas m k = false) : List.find? (fun p => decide (p.1 = k)) m = none := by
  rw [List.find?_eq_none]
  intro p hp
  unfold jsMapHas at h
  simp only [List.any_eq_true, not_exists, not_and, List.any_eq_false,
    decide_eq_true_eq] at h ⊢
  exact h p hp

theorem jsMapGet_set_self {κ α : Type} [DecidableEq κ] (m : List (κ × α)) (k : κ) (v : α) :
    jsMapGet (jsMapSet m k v) k = some v := by
  unfold jsMapSet
  by_cases h : jsMapHas m k
  · rw [if_pos h]
    unfold jsMapGet
    induction m with
    | nil => simp [jsMapHas] at h
    | cons q m ih =>
      by_cases hq : q.1 = k
      · rw [List.map_cons, if_pos hq, List.find?_cons_of_pos _ (by simp)]
        rfl
      · rw [List.map_cons, if_neg hq, List.find?_cons_of_neg _ (by simp [hq])]
        exact ih (by simpa [jsMapHas, hq] using h)
  · rw [if_neg h]
    unfold jsMapGet
    rw [List.find?_append, find?_eq_none_of_not_has m k (by simpa using h)]
    simp [List.find?_cons_of_pos]

theorem jsMapGet_set_ne {κ α : Type} [DecidableEq κ] (m : List (κ × α)) (k k' : κ) (v : α)
    (h : ¬ k' = k) : jsMapGet (jsMapSet m k v) k' = jsMapGet m k' := by
  unfold jsMapSet jsMapGet
  by_cases hh : jsMapHas m k
  · rw [if_pos hh]
    rw [keyPred_map_set m k k' v h]
  · rw [if_neg hh]
    rw [List.find?_append]
    have hone : List.find? (fun p => decide (p.1 = k')) [(k, v)] = none := by
      rw [List.find?_cons_of_neg _ (by simp only [decide_eq_true_eq]; exact fun hk => h hk.symm)]
      rfl
    rw [hone, Option.or_none]

theorem jsMapGet_delete_ne {κ α : Type} [DecidableEq κ] (m : List (κ × α)) (k k' : κ)
    (h : ¬ k' = k) : jsMapGet (jsMapDelete m k) k' = jsMapGet m k' := by
  unfold jsMapDelete jsMapGet
  induction m with
  | nil => rfl
  | cons q m ih =>
    rw [List.filter_cons]
    by_cases hq : q.1 = k
    · rw [if_neg (by simp [hq])]
      rw [List.find?_cons_of_neg _
        (by simp only [decide_eq_true_eq]; exact fun hk => h (hk ▸ hq ▸ rfl))]
      exact ih
    · rw [if_pos (by simp [hq])]
      by_cases hq' : q.1 = k'
      · rw [List.find?_cons_of_pos _ (by simp [hq']), List.find?_cons_of_pos _ (by simp [hq'])]
      · rw [List.find?_cons_of_neg _ (by simp [hq']), List.find?_cons_of_neg _ (by simp [hq'])]
        exact ih

theorem jsMapGet_eq_none_of_not_has {κ α : Type} [DecidableEq κ] (m : List (κ × α)) (k : κ)
    (h : jsMapHas m k = false) : jsMapGet m k = none := by
  unfold jsMapGet
  rw [find?_eq_none_of_not_has m k h]
  rfl

theorem jsMapHas_of_get_eq_some {κ α : Type} [DecidableEq κ] (m : List (κ × α)) (k : κ) (v : α)
    (h : jsMapGet m k = some v) : jsMapHas m k = true := by
  by_cases hh : jsMapHas m k
  · exact hh
  · rw [jsMapGet_eq_none_of_not_has m k (by simpa using hh)] at h
    cases h

theorem mem_keys_of_get_eq_some {κ α : Type} [DecidableEq κ] (m : List (κ × α)) (k : κ) (v : α)
    (h : jsMapGet m k = some v) : k ∈ jsMapKeys m := by
  unfold jsMapGet at h
  cases hf : List.find? (fun p => decide (p.1 = k)) m with
  | none => rw [hf] at h; cases h
  | some p =>
    have hp : p ∈ m := List.mem_of_find?_eq_some hf
    have hpk : p.1 = k := by simpa using List.find?_some hf
    unfold jsMapKeys
    exact hpk ▸ List.mem_map.2 ⟨p, hp, rfl⟩

theorem mem_keys_set_self {κ α : Type} [DecidableEq κ] (m : List (κ × α)) (k : κ) (v : α) :
    k ∈ jsMapKeys (jsMapSet m k v) :=
  mem_keys_of_get_eq_some _ _ _ (jsMapGet_set_self m k v)

theorem mem_keys_set_of_mem {κ α : Type} [DecidableEq κ] (m : List (κ × α)) (k k' : κ) (v : α)
    (h : k' ∈ jsMapKeys m) : k' ∈ jsMapKeys (jsMapSet m k v) := by
  unfold jsMapSet
  by_cases hh : jsMapHas m k
  · rw [if_pos hh]
    unfold jsMapKeys at h ⊢
    simp only [List.mem_map] at h ⊢
    obtain ⟨p, hp, hpk⟩ := h
    by_cases hq : p.1 = k
    · refine ⟨(k, v), ⟨p, hp, ?_⟩, ?_⟩
      · rw [if_pos hq]
      · exact hq.symm.trans hpk
    · refine ⟨p, ⟨p, hp, ?_⟩, hpk⟩
      rw [if_neg hq]
  · rw [if_neg hh]
    unfold jsMapKeys at h ⊢
    rw [List.map_append]
    exact List.mem_append.2 (Or.inl h)

theorem mem_keys_delete {κ α : Type} [DecidableEq κ] (m : List (κ × α)) (k k' : κ)
    (hmem : k' ∈ jsMapKeys m) (hne : ¬ k' = k) : k' ∈ jsMapKeys (jsMapDelete m k) := by
  unfold jsMapDelete
  unfold jsMapKeys at hmem ⊢
  simp only [List.mem_map] at hmem ⊢
  obtain ⟨p, hp, hpk⟩ := hmem
  refine ⟨p, List.mem_filter.2 ⟨hp, ?_⟩, hpk⟩
  subst hpk
  simpa using hne

theorem keys_nodup_set {κ α : Type} [DecidableEq κ] (m : List (κ × α)) (k : κ) (v : α)
    (h : (jsMapKeys m).Nodup) : (jsMapKeys (jsMapSet m k v)).Nodup := by
  unfold jsMapSet
  by_cases hh : jsMapHas m k
  · rw [if_pos hh]
    unfold jsMapKeys at h ⊢
    have heq : (m.map (fun p => if p.1 = k then (k, v) else p)).map Prod.fst = m.map Prod.fst := by
      rw [List.map_map]
      apply List.map_congr_left
      intro p _
      by_cases hq : p.1 = k
      · simp [hq]
      · simp [hq]
    rw [heq]
    exact h
  · rw [if_neg hh]
    unfold jsMapKeys at h ⊢
    rw [List.map_append]
    simp only [List.map_cons, List.map_nil]
    refine List.Nodup.append h (List.nodup_singleton k) ?_
    intro x hx hk
    simp only [List.mem_singleton] at hk
    subst hk
    unfold jsMapHas at hh
    simp only [List.mem_map] at hx
    obtain ⟨p, hp, hpk⟩ := hx
    exact hh (List.any_eq_true.2 ⟨p, hp, by simp [hpk]⟩)

theorem keys_nodup_delete {κ α : Type} [DecidableEq κ] (m : List (κ × α)) (k : κ)
    (h : (jsMapKeys m).Nodup) : (jsMapKeys (jsMapDelete m k)).Nodup := by
  unfold jsMapDelete jsMapKeys
  unfold jsMapKeys at h
  exact (List.Sublist.map Prod.fst (List.filter_sublist m)).nodup h

theorem length_set_le {κ α : Type} [DecidableEq κ] (m : List (κ × α)) (k : κ) (v : α) :
    (jsMapSet m k v).length ≤ m.length + 1 := by
  unfold jsMapSet
  by_cases hh : jsMapHas m k
  · simp [hh]
  · simp [hh]

theorem length_delete_le {κ α : Type} [DecidableEq κ] (m : List (κ × α)) (k : κ) :
    (jsMapDelete m k).length ≤ m.length := by
  unfold jsMapDelete
  exact List.length_filter_le _ m

/-! ## C8 -/

/-- C8: whenever the top-level `subAgents` field of a capability profile is
an object, `supportsFeature("subAgents")` coerces that object with
`Boolean` and returns `true` even though `subAgents.supported` is `false`;
consequently `_isStrategyAvailable("subAgents")` reports the sub-agent
strategy as available for any adapter carrying that profile. -/
theorem claim8_subAgents_object_truthy (caps : CapabilityProfile) (sa : SubAgentsCaps)
    (A : AdapterModel) (hobj : caps.subAgents = some sa) (hfalse : sa.supported = false)
    (hA : A.caps = caps) :
    supportsFeature caps "subAgents" = true ∧ isStrategyAvailable A "subAgents" = true := by
  have h1 : supportsFeature caps "subAgents" = true := by
    simp [supportsFeature, hobj]
  exact ⟨h1, by simp [isStrategyAvailable, hA, h1]⟩

/-- C8 witness: the claim instantiated at the `capsSubObjFalse` profile. -/
theorem claim8_witness :
    capsSubObjFalse.subAgents = some ⟨false, some 2, none⟩ ∧
    (SubAgentsCaps.mk false (some 2) none).supported = false ∧
    supportsFeature capsSubObjFalse "subAgents" = true ∧
    isStrategyAvailable adapterSubObj "subAgents" = true := by
  refine ⟨rfl, rfl, ?_, ?_⟩
  · exact (claim8_subAgents_object_truthy capsSubObjFalse ⟨false, some 2, none⟩ adapterSubObj
      rfl rfl rfl).1
  · exact (claim8_subAgents_object_truthy capsSubObjFalse ⟨false, some 2, none⟩ adapterSubObj
      rfl rfl rfl).2

/-! ## Deficit lemmas for the capability score -/

theorem featureStep_deficit (caps : CapabilityProfile) (st : ScoreState) (f : String) (k : Nat)
    (h : st.matchedCount + k ≤ st.requiredCount) :
    (featureStep caps st f).matchedCount + k ≤ (featureStep caps st f).requiredCount := by
  unfold featureStep
  split
  · simp
    omega
  · simp
    omega

theorem foldl_featureStep_deficit (caps : CapabilityProfile) (fs : List String) :
    ∀ (st : ScoreState) (k : Nat), st.matchedCount + k ≤ st.requiredCount →
      (fs.foldl (featureStep caps) st).matchedCount + k ≤
        (fs.foldl (featureStep caps) st).requiredCount := by
  induction fs with
  | nil => intro st k h; simpa using h
  | cons f fs ih =>
    intro st k h
    rw [List.foldl_cons]
    exact ih _ k (featureStep_deficit caps st f k h)

theorem featureStep_deficit_of_unsupported (caps : CapabilityProfile) (st : ScoreState)
    (f : String) (hsf : supportsFeature caps f = false)
    (h : st.matchedCount ≤ st.requiredCount) :
    (featureStep caps st f).matchedCount + 1 ≤ (featureStep caps st f).requiredCount := by
  unfold featureStep
  rw [if_neg (by simp [hsf])]
  simp
  omega

theorem featurePhase_some (caps : CapabilityProfile) (fs : List String) (st : ScoreState) :
    featurePhase caps (some fs) st = fs.foldl (featureStep caps) st := rfl

theorem featurePhase_deficit_of_mem (caps : CapabilityProfile) (fs : List String) (f : String)
    (st : ScoreState) (hmem : f ∈ fs) (hsf : supportsFeature caps f = false)
    (h : st.matchedCount ≤ st.requiredCount) :
    (featurePhase caps (some fs) st).matchedCount + 1 ≤
      (featurePhase caps (some fs) st).requiredCount := by
  obtain ⟨l1, l2, rfl⟩ := List.append_of_mem hmem
  rw [featurePhase_some, List.foldl_append, List.foldl_cons]
  refine foldl_featureStep_deficit caps l2 _ 1 ?_
  refine featureStep_deficit_of_unsupported caps _ f hsf ?_
  simpa using foldl_featureStep_deficit caps l1 st 0 (by omega)

theorem contextPhase_deficit (caps : CapabilityProfile) (n : Nat) (st : ScoreState) (k : Nat)
    (h : st.matchedCount + k ≤ st.requiredCount) :
    (contextPhase caps n st).matchedCount + k ≤ (contextPhase caps n st).requiredCount := by
  unfold contextPhase
  split
  · exact h
  · split
    · simp
      omega
    · simp
      omega

theorem langPhase_deficit (caps : CapabilityProfile) (ls : Option (List String))
    (st : ScoreState) (k : Nat) (h : st.matchedCount + k ≤ st.requiredCount) :
    (langPhase caps ls st).matchedCount + k ≤ (langPhase caps ls st).requiredCount := by
  cases ls with
  | none => simpa [langPhase] using h
  | some ls =>
    simp only [langPhase]
    split
    · simp
      omega
    · split
      · simp
        omega
      · simp
        omega

theorem capabilityCheckStep_deficit (caps : CapabilityProfile) (st : ScoreState)
    (c : Bool × String × Rat) (k : Nat) (h : st.matchedCount + k ≤ st.requiredCount) :
    (capabilityCheckStep caps st c).matchedCount + k ≤
      (capabilityCheckStep caps st c).requiredCount := by
  unfold capabilityCheckStep
  split
  · split
    · simp
      omega
    · simp
      omega
  · exact h

theorem capabilityChecksPhase_deficit (caps : CapabilityProfile) (r : Requirements)
    (st : ScoreState) (k : Nat) (h : st.matchedCount + k ≤ st.requiredCount) :
    (capabilityChecksPhase caps r st).matchedCount + k ≤
      (capabilityChecksPhase caps r st).requiredCount := by
  unfold capabilityChecksPhase
  refine capabilityCheckStep_deficit caps _ _ k ?_
  refine capabilityCheckStep_deficit caps _ _ k ?_
  exact capabilityCheckStep_deficit caps _ _ k h

/-! ## C1 -/

/-- C1: for every requirement profile demanding a feature `f`, an adapter
whose `supportsFeature(f)` is `false` gets capability score exactly 0, and
`findMatchingAdapters` therefore only ever returns adapters supporting `f`
(it never includes such an adapter with a positive score). -/
theorem claim1_missing_feature_zero (r : Requirements) (fs : List String) (f : String)
    (hfs : r.features = some fs) (hmem : f ∈ fs) :
    (∀ caps : CapabilityProfile, supportsFeature caps f = false →
       calculateCapabilityScore caps r = 0) ∧
    (∀ (reg : Registry) (m : AdapterMatch), m ∈ findMatchingAdapters reg r →
       supportsFeature m.adapter.caps f = true) := by
  have hzero : ∀ caps : CapabilityProfile, supportsFeature caps f = false →
      calculateCapabilityScore caps r = 0 := by
    intro caps hsf
    unfold calculateCapabilityScore calculateCapabilityState
    rw [hfs]
    have h1 := featurePhase_deficit_of_mem caps fs f
      { score := 0, requiredCount := 0, matchedCount := 0 } hmem hsf (by simp)
    have h2 := contextPhase_deficit caps r.minContextTokens _ 1 h1
    have h3 := langPhase_deficit caps r.languages _ 1 h2
    have h4 := capabilityChecksPhase_deficit caps r _ 1 h3
    rw [if_pos ⟨by omega, by omega⟩]
  refine ⟨hzero, ?_⟩
  intro reg m hm
  unfold findMatchingAdapters at hm
  rw [mem_jsSortBy] at hm
  obtain ⟨l, hl, hml⟩ := List.mem_flatten.1 hm
  obtain ⟨p, hp, rfl⟩ := List.mem_map.1 hl
  obtain ⟨q, hq, heq⟩ := List.mem_filterMap.1 hml
  dsimp only at heq
  by_cases h0 : (0 : Rat) < calculateCapabilityScore q.2.caps r
  · rw [if_pos h0] at heq
    injection heq with heq2
    subst heq2
    by_cases hsf : supportsFeature q.2.caps f
    · exact hsf
    · exfalso
      rw [hzero q.2.caps (by simpa using hsf)] at h0
      exact absurd h0 (by norm_num)
  · rw [if_neg h0] at heq
    cases heq

/-- C1 witness: the `capsC2` registry with a profile missing the required
feature `"comprehension"` scores 0 and is excluded from the match list. -/
theorem claim1_witness :
    ({ features := some ["comprehension"], minContextTokens := 0, languages := none,
       multiFile := false, streaming := false, subAgents := false } : Requirements).features =
        some ["comprehension"] ∧
    "comprehension" ∈ ["comprehension"] ∧
    supportsFeature capsC2 "comprehension" = false ∧
    calculateCapabilityScore capsC2
      { features := some ["comprehension"], minContextTokens := 0, languages := none,
        multiFile := false, streaming := false, subAgents := false } = 0 := by
  refine ⟨rfl, by simp, by decide, ?_⟩
  exact (claim1_missing_feature_zero _ ["comprehension"] "comprehension" rfl (by simp)).1
    capsC2 (by decide)
/-! ## C2 -/

theorem featurePhase_deficit (caps : CapabilityProfile) (fs : Option (List String))
    (st : ScoreState) (k : Nat) (h : st.matchedCount + k ≤ st.requiredCount) :
    (featurePhase caps fs st).matchedCount + k ≤ (featurePhase caps fs st).requiredCount := by
  cases fs with
  | none => exact h
  | some fs =>
    rw [featurePhase_some]
    exact foldl_featureStep_deficit caps fs st k h

/-- Partial language coverage: the language phase adds the fractional
credit `(matched/required) * 5` to the score, counts the category as
required, and leaves `matchedCount` untouched. -/
theorem langPhase_partial_projections (caps : CapabilityProfile) (ls : List String)
    (st : ScoreState)
    (h1 : 0 < ((jsDedup ls).filter (fun l => caps.supportedLanguages.contains l)).length)
    (h2 : ((jsDedup ls).filter (fun l => caps.supportedLanguages.contains l)).length <
      (jsDedup ls).length) :
    langPhase caps (some ls) st =
      { score := ratAdd st.score (ratMul (ratDiv
          ((((jsDedup ls).filter (fun l => caps.supportedLanguages.contains l)).length : Nat) : Rat)
          (((jsDedup ls).length : Nat) : Rat)) 5),
        requiredCount := st.requiredCount + 1,
        matchedCount := st.matchedCount } := by
  simp only [langPhase]
  rw [if_neg (by omega), if_pos h1]

/-- C2 counterexample: the `capsC2` adapter satisfies every category of
`reqsC2` except one of the two required languages.  The intermediate state
carries the fractional language credit (score 57/2 with 5 of 6 categories
matched), but the final score is forced to 0 and `findMatchingAdapters`
returns the empty list — not the adapter with a positive score. -/
theorem claim2_counterexample :
    calculateCapabilityState capsC2 reqsC2 =
      { score := mkRat 57 2, requiredCount := 6, matchedCount := 5 } ∧
    calculateCapabilityScore capsC2 reqsC2 = 0 ∧
    findMatchingAdapters regC2 reqsC2 = [] := by
  refine ⟨by decide, by decide, by decide⟩

/-- A deficit created no later than the language phase forces the final
capability score to 0. -/
theorem score_zero_of_lang_deficit (caps : CapabilityProfile) (r : Requirements)
    (h : (langPhase caps r.languages (contextPhase caps r.minContextTokens
        (featurePhase caps r.features { score := 0, requiredCount := 0, matchedCount := 0 }))).matchedCount + 1 ≤
      (langPhase caps r.languages (contextPhase caps r.minContextTokens
        (featurePhase caps r.features { score := 0, requiredCount := 0, matchedCount := 0 }))).requiredCount) :
    calculateCapabilityScore caps r = 0 := by
  unfold calculateCapabilityScore calculateCapabilityState
  have hcap := capabilityChecksPhase_deficit caps r _ 1 h
  rw [if_pos ⟨by omega, by omega⟩]

/-- C2 amended: partial language coverage does add the fractional
`(matched/required) * 5` points to the accumulated score, but the language
category is counted as required-and-unmatched, so `_calculateCapabilityScore`
forces the final score to 0 and `findMatchingAdapters` does not return the
adapter (instead of returning it with a positive score as the claim said). -/
theorem claim2_amended_partial_language_zero (caps : CapabilityProfile) (r : Requirements)
    (ls : List String) (hl : r.languages = some ls)
    (h1 : 0 < ((jsDedup ls).filter (fun l => caps.supportedLanguages.contains l)).length)
    (h2 : ((jsDedup ls).filter (fun l => caps.supportedLanguages.contains l)).length <
      (jsDedup ls).length) :
    (∀ st : ScoreState, langPhase caps (some ls) st =
      { score := ratAdd st.score (ratMul (ratDiv
          ((((jsDedup ls).filter (fun l => caps.supportedLanguages.contains l)).length : Nat) : Rat)
          (((jsDedup ls).length : Nat) : Rat)) 5),
        requiredCount := st.requiredCount + 1,
        matchedCount := st.matchedCount }) ∧
    calculateCapabilityScore caps r = 0 := by
  refine ⟨fun st => langPhase_partial_projections caps ls st h1 h2, ?_⟩
  apply score_zero_of_lang_deficit
  rw [hl, langPhase_partial_projections caps ls _ h1 h2]
  have hfeat := featurePhase_deficit caps r.features
    { score := 0, requiredCount := 0, matchedCount := 0 } 0 (by simp)
  have hctx := contextPhase_deficit caps r.minContextTokens _ 0 hfeat
  simp
  omega

/-- C2 witness: the amended claim applied to `capsC2` and `reqsC2`. -/
theorem claim2_witness :
    reqsC2.languages = some ["javascript", "python"] ∧
    0 < ((jsDedup ["javascript", "python"]).filter
      (fun l => capsC2.supportedLanguages.contains l)).length ∧
    ((jsDedup ["javascript", "python"]).filter
      (fun l => capsC2.supportedLanguages.contains l)).length <
        (jsDedup ["javascript", "python"]).length ∧
    calculateCapabilityScore capsC2 reqsC2 = 0 :=
  ⟨rfl, by decide, by decide,
   (claim2_amended_partial_language_zero capsC2 reqsC2 ["javascript", "python"] rfl
     (by decide) (by decide)).2⟩
/-! ## Chain-step lemmas for the orchestration engine -/

theorem chainLoop_cons_notAvailable (A : AdapterModel) (t : Task) (o : ExecOptions)
    (s : String) (rest : List String) (attempts : List StrategyAttempt) (elapsed : Nat)
    (h : isStrategyAvailable A s = false) :
    chainLoop A t o (s :: rest) attempts elapsed =
      chainLoop A t o rest (attempts ++ [skippedAttempt s "Not available"]) elapsed := by
  simp only [chainLoop]
  rw [if_pos (by simp [h])]

theorem chainLoop_cons_notSuitable (A : AdapterModel) (t : Task) (o : ExecOptions)
    (s : String) (rest : List String) (attempts : List StrategyAttempt) (elapsed : Nat)
    (h1 : isStrategyAvailable A s = true) (h2 : isStrategySuitable s t = false) :
    chainLoop A t o (s :: rest) attempts elapsed =
      chainLoop A t o rest (attempts ++ [skippedAttempt s "Not suitable for task"]) elapsed := by
  simp only [chainLoop]
  rw [if_neg (by simp [h1]), if_pos (by simp [h2])]

theorem chainLoop_cons_ok (A : AdapterModel) (t : Task) (o : ExecOptions)
    (s : String) (rest : List String) (attempts : List StrategyAttempt) (elapsed : Nat)
    (d : Nat) (res : JSResult)
    (h1 : isStrategyAvailable A s = true) (h2 : isStrategySuitable s t = true)
    (h3 : executeWithTimeout (executeStrategy A s t o)
      (if o.timeout = 0 then strategyTimeouts s else o.timeout) = ⟨d, .ok res⟩) :
    chainLoop A t o (s :: rest) attempts elapsed =
      .ok { result := res, strategy := some s,
            attempts := some (attempts ++ [successAttempt s d]),
            totalDuration := some (elapsed + d) } := by
  simp only [chainLoop]
  rw [if_neg (by simp [h1]), if_neg (by simp [h2]), h3]

theorem chainLoop_cons_fail (A : AdapterModel) (t : Task) (o : ExecOptions)
    (s : String) (rest : List String) (attempts : List StrategyAttempt) (elapsed : Nat)
    (d : Nat) (e : String)
    (h1 : isStrategyAvailable A s = true) (h2 : isStrategySuitable s t = true)
    (h3 : executeWithTimeout (executeStrategy A s t o)
      (if o.timeout = 0 then strategyTimeouts s else o.timeout) = ⟨d, .error e⟩) :
    chainLoop A t o (s :: rest) attempts elapsed =
      chainLoop A t o rest (attempts ++ [failedAttempt s e d]) (elapsed + d) := by
  simp only [chainLoop]
  rw [if_neg (by simp [h1]), if_neg (by simp [h2]), h3]

theorem chainLoop_ok_trail (A : AdapterModel) (t : Task) (o : ExecOptions) :
    ∀ (ss : List String) (attempts : List StrategyAttempt) (elapsed : Nat) (r : ExecReturn),
      chainLoop A t o ss attempts elapsed = .ok r →
      ∃ front la, r.attempts = some (attempts ++ (front ++ [la])) ∧
        la.status = "success" ∧
        (∀ a ∈ front, a.status = "skipped" ∨ a.status = "failed") ∧
        (front ++ [la]).map (·.strategy) = ss.take (front.length + 1) ∧
        r.strategy = some la.strategy := by
  intro ss
  induction ss with
  | nil =>
    intro attempts elapsed r h
    simp [chainLoop] at h
  | cons s rest ih =>
    intro attempts elapsed r h
    by_cases h1 : isStrategyAvailable A s
    · by_cases h2 : isStrategySuitable s t
      · cases hE : executeWithTimeout (executeStrategy A s t o)
          (if o.timeout = 0 then strategyTimeouts s else o.timeout) with
        | mk d v =>
          cases v with
          | ok res =>
            rw [chainLoop_cons_ok A t o s rest attempts elapsed d res h1 h2 hE] at h
            injection h with h
            subst h
            refine ⟨[], successAttempt s d, by simp, rfl, by simp, by simp [successAttempt], rfl⟩
          | error e =>
            rw [chainLoop_cons_fail A t o s rest attempts elapsed d e h1 h2 hE] at h
            obtain ⟨front, la, hatt, hla, hfront, hmap, hstrat⟩ := ih _ _ _ h
            refine ⟨failedAttempt s e d :: front, la, ?_, hla, ?_, ?_, hstrat⟩
            · rw [hatt]
              simp
            · intro a ha
              rcases List.mem_cons.1 ha with ha | ha
              · rw [ha]; right; rfl
              · exact hfront a ha
            · simp only [List.cons_append, List.map_cons, List.length_cons, List.take_succ_cons]
              rw [hmap]
              rfl
      · rw [chainLoop_cons_notSuitable A t o s rest attempts elapsed h1
          (by simpa using h2)] at h
        obtain ⟨front, la, hatt, hla, hfront, hmap, hstrat⟩ := ih _ _ _ h
        refine ⟨skippedAttempt s "Not suitable for task" :: front, la, ?_, hla, ?_, ?_, hstrat⟩
        · rw [hatt]
          simp
        · intro a ha
          rcases List.mem_cons.1 ha with ha | ha
          · rw [ha]; left; rfl
          · exact hfront a ha
        · simp only [List.cons_append, List.map_cons, List.length_cons, List.take_succ_cons]
          rw [hmap]
          rfl
    · rw [chainLoop_cons_notAvailable A t o s rest attempts elapsed (by simpa using h1)] at h
      obtain ⟨front, la, hatt, hla, hfront, hmap, hstrat⟩ := ih _ _ _ h
      refine ⟨skippedAttempt s "Not available" :: front, la, ?_, hla, ?_, ?_, hstrat⟩
      · rw [hatt]
        simp
      · intro a ha
        rcases List.mem_cons.1 ha with ha | ha
        · rw [ha]; left; rfl
        · exact hfront a ha
      · simp only [List.cons_append, List.map_cons, List.length_cons, List.take_succ_cons]
        rw [hmap]
        rfl

theorem chainLoop_error_trail (A : AdapterModel) (t : Task) (o : ExecOptions) :
    ∀ (ss : List String) (attempts : List StrategyAttempt) (elapsed : Nat) (e : ExhaustedError),
      chainLoop A t o ss attempts elapsed = .error e →
      ∃ tail, e.attempts = attempts ++ tail ∧ tail.map (·.strategy) = ss ∧
        ∀ a ∈ tail, a.status = "skipped" ∨ a.status = "failed" := by
  intro ss
  induction ss with
  | nil =>
    intro attempts elapsed e h
    simp only [chainLoop] at h
    injection h with h
    subst h
    exact ⟨[], by simp, rfl, by simp⟩
  | cons s rest ih =>
    intro attempts elapsed e h
    by_cases h1 : isStrategyAvailable A s
    · by_cases h2 : isStrategySuitable s t
      · cases hE : executeWithTimeout (executeStrategy A s t o)
          (if o.timeout = 0 then strategyTimeouts s else o.timeout) with
        | mk d v =>
          cases v with
          | ok res =>
            rw [chainLoop_cons_ok A t o s rest attempts elapsed d res h1 h2 hE] at h
            cases h
          | error msg =>
            rw [chainLoop_cons_fail A t o s rest attempts elapsed d msg h1 h2 hE] at h
            obtain ⟨tail, hatt, hmap, hstat⟩ := ih _ _ _ h
            refine ⟨failedAttempt s msg d :: tail, ?_, ?_, ?_⟩
            · rw [hatt]; simp
            · simp only [List.map_cons]; rw [hmap]; rfl
            · intro a ha
              rcases List.mem_cons.1 ha with ha | ha
              · rw [ha]; right; rfl
              · exact hstat a ha
      · rw [chainLoop_cons_notSuitable A t o s rest attempts elapsed h1 (by simpa using h2)] at h
        obtain ⟨tail, hatt, hmap, hstat⟩ := ih _ _ _ h
        refine ⟨skippedAttempt s "Not suitable for task" :: tail, ?_, ?_, ?_⟩
        · rw [hatt]; simp
        · simp only [List.map_cons]; rw [hmap]; rfl
        · intro a ha
          rcases List.mem_cons.1 ha with ha | ha
          · rw [ha]; left; rfl
          · exact hstat a ha
    · rw [chainLoop_cons_notAvailable A t o s rest attempts elapsed (by simpa using h1)] at h
      obtain ⟨tail, hatt, hmap, hstat⟩ := ih _ _ _ h
      refine ⟨skippedAttempt s "Not available" :: tail, ?_, ?_, ?_⟩
      · rw [hatt]; simp
      · simp only [List.map_cons]; rw [hmap]; rfl
      · intro a ha
        rcases List.mem_cons.1 ha with ha | ha
        · rw [ha]; left; rfl
        · exact hstat a ha
/-! ## C3 -/

/-- C3 counterexample: a task satisfying every hypothesis of the claim
(no explicit strategy, adapter with no advanced capability, every
`executeTask` call succeeding) but carrying 11 context files.  The batched
strategy is suitable (`> 10` files) and succeeds, so `execute` resolves via
`batched` after only three skips — not via `sequential` after four skips. -/
theorem claim3_counterexample :
    execute adapterPlain (mkTaskFiles 11) defaultExecOptions = .ok
      { result :=
          { taskId := some "t1", status := some "completed",
            output := "done\n---\ndone\n---\ndone", artifacts := [],
            batchCount := some 3, parallelSuccessful := none, parallelFailed := none,
            parallelFailures := [] },
        strategy := some "batched",
        attempts := some
          [skippedAttempt "subAgents" "Not available",
           skippedAttempt "parallel" "Not available",
           skippedAttempt "streaming" "Not available",
           successAttempt "batched" 0],
        totalDuration := some 0 } ∧
    ¬ (some "batched" = some "sequential") := by
  exact ⟨rfl, by decide⟩

/-- C3 amended: for every task without an explicit strategy, executed with
the default options through an adapter supporting none of `subAgents`,
`parallelExecution` and `streaming`, whose `executeTask` resolves
successfully within the sequential timeout, and whose context has at most
10 files (so `batched` is not suitable), `execute` resolves via the
sequential strategy with exactly four skipped attempts followed by one
success. -/
theorem claim3_amended_sequential_after_four_skips (A : AdapterModel) (t : Task)
    (o : ExecOptions) (d : Nat) (res : JSResult)
    (hsub : supportsFeature A.caps "subAgents" = false)
    (hpar : supportsFeature A.caps "parallelExecution" = false)
    (hstr : supportsFeature A.caps "streaming" = false)
    (hexp : getExplicitStrategy A t = none)
    (hstrat : o.strategies = none)
    (htime : o.timeout = 0)
    (hfiles : taskFilesCount t ≤ 10)
    (hexec : A.executeTask t = ⟨d, .ok res⟩)
    (hdur : d < 60000) :
    execute A t o = .ok
      { result := res, strategy := some "sequential",
        attempts := some
          [skippedAttempt "subAgents" "Not available",
           skippedAttempt "parallel" "Not available",
           skippedAttempt "streaming" "Not available",
           skippedAttempt "batched" "Not suitable for task",
           successAttempt "sequential" d],
        totalDuration := some d } := by
  have havailSub : isStrategyAvailable A "subAgents" = false := by
    simp [isStrategyAvailable, hsub]
  have havailPar : isStrategyAvailable A "parallel" = false := by
    simp [isStrategyAvailable, hpar]
  have havailStr : isStrategyAvailable A "streaming" = false := by
    simp [isStrategyAvailable, hstr]
  have havailBat : isStrategyAvailable A "batched" = true := by
    simp [isStrategyAvailable]
  have hsuitBat : isStrategySuitable "batched" t = false := by
    have hn : ¬ (10 < taskFilesCount t) := by omega
    simp [isStrategySuitable, hn]
  have havailSeq : isStrategyAvailable A "sequential" = true := by
    simp [isStrategyAvailable]
  have hsuitSeq : isStrategySuitable "sequential" t = true := by
    simp [isStrategySuitable]
  have hseqExec : executeWithTimeout (executeStrategy A "sequential" t o)
      (if o.timeout = 0 then strategyTimeouts "sequential" else o.timeout) = ⟨d, .ok res⟩ := by
    rw [htime, if_pos rfl]
    have hstep : executeStrategy A "sequential" t o = ⟨d, .ok res⟩ := by
      simp [executeStrategy, executeSequentially, hexec]
    rw [hstep]
    unfold executeWithTimeout
    rw [if_pos (by simp [strategyTimeouts]; omega)]
  simp only [execute, hexp, hstrat, Option.getD, defaultStrategies]
  rw [chainLoop_cons_notAvailable A t o _ _ _ _ havailSub,
      chainLoop_cons_notAvailable A t o _ _ _ _ havailPar,
      chainLoop_cons_notAvailable A t o _ _ _ _ havailStr,
      chainLoop_cons_notSuitable A t o _ _ _ _ havailBat hsuitBat,
      chainLoop_cons_ok A t o _ _ _ _ d res havailSeq hsuitSeq hseqExec]
  simp

/-- C3 witness: the amended claim at the three-file fixture. -/
theorem claim3_witness :
    supportsFeature adapterPlain.caps "subAgents" = false ∧
    supportsFeature adapterPlain.caps "parallelExecution" = false ∧
    supportsFeature adapterPlain.caps "streaming" = false ∧
    getExplicitStrategy adapterPlain (mkTaskFiles 3) = none ∧
    taskFilesCount (mkTaskFiles 3) ≤ 10 ∧
    adapterPlain.executeTask (mkTaskFiles 3) = ⟨0, .ok okResult⟩ ∧
    execute adapterPlain (mkTaskFiles 3) defaultExecOptions = .ok
      { result := okResult, strategy := some "sequential",
        attempts := some
          [skippedAttempt "subAgents" "Not available",
           skippedAttempt "parallel" "Not available",
           skippedAttempt "streaming" "Not available",
           skippedAttempt "batched" "Not suitable for task",
           successAttempt "sequential" 0],
        totalDuration := some 0 } := by
  refine ⟨by decide, by decide, by decide, by decide, by decide, rfl, ?_⟩
  exact claim3_amended_sequential_after_four_skips adapterPlain (mkTaskFiles 3)
    defaultExecOptions 0 okResult (by decide) (by decide) (by decide) (by decide) rfl rfl
    (by decide) rfl (by decide)

/-! ## C9 -/

/-- C9: an explicit `executionStrategy` outside the five known strategy
names is not available to the chain, yet the explicit pre-chain attempt
executes it through the `switch` default — a plain sequential
`executeTask` call — with no availability or suitability check and no
timeout race: the call succeeds for an arbitrary duration `d`, even one
exceeding every configured timeout, and `execute` resolves with the raw
result. -/
theorem claim9_explicit_unknown_sequential (A : AdapterModel) (t : Task) (o : ExecOptions)
    (s : String) (d : Nat) (res : JSResult)
    (hexp : getExplicitStrategy A t = some s)
    (hunknown : s ∉ defaultStrategies)
    (hexec : A.executeTask t = ⟨d, .ok res⟩) :
    isStrategyAvailable A s = false ∧
    executeStrategy A s t o = A.executeTask t ∧
    execute A t o =
      .ok { result := res, strategy := none, attempts := none, totalDuration := none } := by
  have h1 : ¬ s = "subAgents" := fun h => hunknown (by simp [defaultStrategies, h])
  have h2 : ¬ s = "parallel" := fun h => hunknown (by simp [defaultStrategies, h])
  have h3 : ¬ s = "streaming" := fun h => hunknown (by simp [defaultStrategies, h])
  have h4 : ¬ s = "batched" := fun h => hunknown (by simp [defaultStrategies, h])
  have h5 : ¬ s = "sequential" := fun h => hunknown (by simp [defaultStrategies, h])
  have hstep : executeStrategy A s t o = A.executeTask t := by
    simp [executeStrategy, executeSequentially, h1, h2, h3, h4]
  refine ⟨by simp [isStrategyAvailable, h1, h2, h3, h4, h5], hstep, ?_⟩
  simp only [execute, hexp, hstep, hexec]

/-- C9 witness: the unknown explicit strategy `"weird"` on an adapter whose
call takes 10^9 ms — far beyond every timeout — still resolves raw. -/
theorem claim9_witness :
    getExplicitStrategy adapterSlow taskExplicitWeird = some "weird" ∧
    "weird" ∉ defaultStrategies ∧
    adapterSlow.executeTask taskExplicitWeird = ⟨1000000000, .ok okResult⟩ ∧
    strategyTimeouts "subAgents" < 1000000000 ∧
    execute adapterSlow taskExplicitWeird defaultExecOptions = .ok
      { result := okResult, strategy := none, attempts := none, totalDuration := none } := by
  refine ⟨by decide, by decide, rfl, by decide, ?_⟩
  exact (claim9_explicit_unknown_sequential adapterSlow taskExplicitWeird defaultExecOptions
    "weird" 1000000000 okResult (by decide) (by decide) rfl).2.2

/-! ## C5 -/

/-- C5 counterexample: a success obtained through a task-supplied explicit
strategy returns the adapter's raw result — `strategy`, `attempts` and
`totalDuration` are all absent, so this outcome carries no ordered attempt
trail. -/
theorem claim5_counterexample :
    execute adapterSlow taskExplicitWeird defaultExecOptions = .ok
      { result := okResult, strategy := none, attempts := none, totalDuration := none } ∧
    (ExecReturn.mk okResult none none none).attempts = none := by
  exact ⟨rfl, rfl⟩

/-- C5 amended: chain outcomes carry the ordered attempt trail — the
exhaustion error lists one skipped-or-failed attempt per chain strategy in
order, and a chain success lists the skipped-or-failed prefix followed by
the succeeding attempt — but a success via the explicit pre-chain strategy
returns the raw result with no attempt trail. -/
theorem claim5_amended_attempt_trail (A : AdapterModel) (t : Task) (o : ExecOptions) :
    (∀ e : ExhaustedError, execute A t o = .error e →
      e.attempts.map (·.strategy) = o.strategies.getD defaultStrategies ∧
      ∀ a ∈ e.attempts, a.status = "skipped" ∨ a.status = "failed") ∧
    (∀ r : ExecReturn, getExplicitStrategy A t = none → execute A t o = .ok r →
      ∃ front la, r.attempts = some (front ++ [la]) ∧ la.status = "success" ∧
        (∀ a ∈ front, a.status = "skipped" ∨ a.status = "failed") ∧
        (front ++ [la]).map (·.strategy) =
          (o.strategies.getD defaultStrategies).take (front.length + 1) ∧
        r.strategy = some la.strategy) ∧
    (∀ (s : String) (d : Nat) (res : JSResult), getExplicitStrategy A t = some s →
      executeStrategy A s t o = ⟨d, .ok res⟩ →
      execute A t o =
        .ok { result := res, strategy := none, attempts := none, totalDuration := none }) := by
  refine ⟨?_, ?_, ?_⟩
  · intro e he
    cases hexp : getExplicitStrategy A t with
    | none =>
      simp only [execute, hexp] at he
      obtain ⟨tail, hatt, hmap, hstat⟩ := chainLoop_error_trail A t o _ _ _ _ he
      simp only [List.nil_append] at hatt
      rw [hatt, hmap]
      exact ⟨rfl, hstat⟩
    | some es =>
      simp only [execute, hexp] at he
      cases hE : executeStrategy A es t o with
      | mk d v =>
        rw [hE] at he
        cases v with
        | ok res => simp at he
        | error msg =>
          dsimp only at he
          obtain ⟨tail, hatt, hmap, hstat⟩ := chainLoop_error_trail A t o _ _ _ _ he
          simp only [List.nil_append] at hatt
          rw [hatt, hmap]
          exact ⟨rfl, hstat⟩
  · intro r hexp hr
    unfold execute at hr
    rw [hexp] at hr
    obtain ⟨front, la, hatt, hla, hfront, hmap, hstrat⟩ := chainLoop_ok_trail A t o _ _ _ _ hr
    simp only [List.nil_append] at hatt
    exact ⟨front, la, hatt, hla, hfront, hmap, hstrat⟩
  · intro s d res hexp hE
    simp only [execute, hexp]
    rw [hE]

/-- C5 witness: the amended claim's explicit-success part at the `"weird"`
fixture, together with a chain-success instance. -/
theorem claim5_witness :
    getExplicitStrategy adapterSlow taskExplicitWeird = some "weird" ∧
    executeStrategy adapterSlow "weird" taskExplicitWeird defaultExecOptions =
      ⟨1000000000, .ok okResult⟩ ∧
    execute adapterSlow taskExplicitWeird defaultExecOptions = .ok
      { result := okResult, strategy := none, attempts := none, totalDuration := none } := by
  refine ⟨by decide, rfl, ?_⟩
  exact (claim5_amended_attempt_trail adapterSlow taskExplicitWeird defaultExecOptions).2.2
    "weird" 1000000000 okResult (by decide) rfl
/-! ## C4 -/

theorem taskFilesCount_eq (t : Task) (fs : List String) (h : taskFiles t = some fs) :
    taskFilesCount t = fs.length := by
  unfold taskFiles at h
  unfold taskFilesCount
  cases hc : t.context with
  | none => rw [hc] at h; cases h
  | some ctx =>
    rw [hc] at h
    simp only [Option.some_bind] at h
    dsimp only
    rw [h]
    rfl

theorem jsChunks_of_short {α : Type} (l : List α) (n : Nat) (h0 : 0 < l.length)
    (hn : l.length ≤ n) : jsChunks n l = [l] := by
  unfold jsChunks chunkStarts
  have hnz : ¬ n = 0 := by omega
  rw [if_neg hnz]
  have hdiv : (l.length + n - 1) / n = 1 := by
    apply Nat.div_eq_of_lt_le
    · omega
    · omega
  rw [hdiv]
  have hrange : List.range 1 = [0] := rfl
  rw [hrange]
  simp [List.take_of_length_le hn]

theorem foldl_max_zero (l : List Nat) (h : ∀ x ∈ l, x = 0) : l.foldl max 0 = 0 := by
  induction l with
  | nil => rfl
  | cons x xs ih =>
    rw [List.foldl_cons]
    rw [h x (by simp), Nat.max_self]
    exact ih (fun y hy => h y (by simp [hy]))

theorem catchParallelItem_of_failedFast (A : AdapterModel) (tk : Task)
    (h : isFailedFast (A.executeTask tk) = true) :
    ∃ msg, catchParallelItem A tk = ⟨0, .err msg tk.id⟩ := by
  unfold isFailedFast at h
  cases hE : A.executeTask tk with
  | mk d0 v =>
    rw [hE] at h
    simp only [Bool.and_eq_true, decide_eq_true_eq] at h
    cases v with
    | ok r => simp at h
    | error msg =>
      refine ⟨msg, ?_⟩
      unfold catchParallelItem
      rw [hE]
      simp [h.1]

theorem runParallelBatches_single_all_fail (A : AdapterModel) (pts : List Task) (maxC : Nat)
    (hchunk : jsChunks maxC pts = [pts])
    (hfail : ∀ st ∈ pts, isFailedFast (A.executeTask st) = true) :
    (runParallelBatches A pts maxC).dur = 0 ∧
    ∀ i ∈ (runParallelBatches A pts maxC).val,
      (match i with
       | ParItem.ok r => some r
       | ParItem.err _ _ => none) = (none : Option JSResult) := by
  unfold runParallelBatches
  rw [hchunk]
  simp only [List.foldl_cons, List.foldl_nil]
  constructor
  · show 0 + batchDuration (pts.map (catchParallelItem A)) = 0
    unfold batchDuration
    rw [foldl_max_zero]
    · intro x hx
      simp only [List.map_map, List.mem_map] at hx
      obtain ⟨st, hst, hxd⟩ := hx
      obtain ⟨msg, hcatch⟩ := catchParallelItem_of_failedFast A st (hfail st hst)
      simp only [Function.comp] at hxd
      rw [hcatch] at hxd
      exact hxd.symm
  · intro i hi
    simp only [List.nil_append, List.map_map, List.mem_map] at hi
    obtain ⟨st, hst, hival⟩ := hi
    obtain ⟨msg, hcatch⟩ := catchParallelItem_of_failedFast A st (hfail st hst)
    simp only [Function.comp] at hival
    rw [hcatch] at hival
    rw [← hival]

theorem executeInParallel_all_fail (A : AdapterModel) (t : Task) (o : ExecOptions)
    (fs : List String)
    (hpar : supportsFeature A.caps "parallelExecution" = true)
    (hcfg : getFeatureConfig A.caps "parallelExecution" = none)
    (hfiles : taskFiles t = some fs)
    (hlen1 : 1 < fs.length) (hlen2 : fs.length ≤ 5)
    (hfail : ∀ st ∈ decomposeForParallel t, isFailedFast (A.executeTask st) = true) :
    executeInParallel A t o = ⟨0, .error "All parallel tasks failed"⟩ := by
  have hlen : (decomposeForParallel t).length = fs.length := by
    unfold decomposeForParallel
    rw [hfiles]
    dsimp only
    rw [if_pos hlen1]
    simp
  have hchunk : jsChunks (maxConcurrentOr (getFeatureConfig A.caps "parallelExecution") 5)
      (decomposeForParallel t) = [decomposeForParallel t] := by
    rw [hcfg]
    exact jsChunks_of_short _ 5 (by omega) (by omega)
  obtain ⟨hdur, hvals⟩ := runParallelBatches_single_all_fail A (decomposeForParallel t)
    (maxConcurrentOr (getFeatureConfig A.caps "parallelExecution") 5) hchunk hfail
  simp only [executeInParallel]
  rw [if_neg (by simp [hpar])]
  rw [if_neg (by omega)]
  have hagg : aggregateParallelResults
      (runParallelBatches A (decomposeForParallel t)
        (maxConcurrentOr (getFeatureConfig A.caps "parallelExecution") 5)).val t =
      .error "All parallel tasks failed" := by
    unfold aggregateParallelResults
    have hnil : (runParallelBatches A (decomposeForParallel t)
        (maxConcurrentOr (getFeatureConfig A.caps "parallelExecution") 5)).val.filterMap
        (fun i => match i with
          | ParItem.ok r => some r
          | ParItem.err _ _ => none) = [] :=
      List.filterMap_eq_nil_iff.2 hvals
    rw [hnil]
    rfl
  rw [hagg, hdur]

/-- C4 counterexample: a three-file task with explicit strategy
`"parallel"` on an adapter supporting only `parallelExecution`, whose
parallel subtasks all fail while the plain task succeeds.  The explicit
failed attempt is never pushed into the trail — the first recorded entry
is the `subAgents` skip, not `(parallel, failed)` — and `parallel` is
re-tried (and fails again) inside the ordinary chain before `sequential`
succeeds. -/
theorem claim4_counterexample :
    execute adapterParFail taskParallel3 defaultExecOptions = .ok
      { result := okResult, strategy := some "sequential",
        attempts := some
          [skippedAttempt "subAgents" "Not available",
           failedAttempt "parallel" "All parallel tasks failed" 0,
           skippedAttempt "streaming" "Not available",
           skippedAttempt "batched" "Not suitable for task",
           successAttempt "sequential" 0],
        totalDuration := some 0 } ∧
    ¬ (skippedAttempt "subAgents" "Not available").strategy = "parallel" ∧
    ¬ (skippedAttempt "subAgents" "Not available").status = "failed" := by
  exact ⟨rfl, by decide, by decide⟩

/-- C4 amended: with an explicit `executionStrategy: "parallel"` whose
parallel execution fails while the plain sequential call succeeds,
`execute` falls back and resolves via `sequential`; however the explicit
failed attempt is not recorded (the trail starts with the chain's
`subAgents` skip), and the explicit strategy is re-tried inside the
ordinary fallback chain, where its failure is the trail's second entry. -/
theorem claim4_amended_parallel_fallback (A : AdapterModel) (t : Task) (o : ExecOptions)
    (fs : List String) (res : JSResult)
    (hsub : supportsFeature A.caps "subAgents" = false)
    (hpar : supportsFeature A.caps "parallelExecution" = true)
    (hstr : supportsFeature A.caps "streaming" = false)
    (hcfg : getFeatureConfig A.caps "parallelExecution" = none)
    (hexp : getExplicitStrategy A t = some "parallel")
    (hfiles : taskFiles t = some fs)
    (hlen1 : 2 < fs.length) (hlen2 : fs.length ≤ 5)
    (hfail : ∀ st ∈ decomposeForParallel t, isFailedFast (A.executeTask st) = true)
    (hok : A.executeTask t = ⟨0, .ok res⟩)
    (hstrat : o.strategies = none) (htime : o.timeout = 0) :
    execute A t o = .ok
      { result := res, strategy := some "sequential",
        attempts := some
          [skippedAttempt "subAgents" "Not available",
           failedAttempt "parallel" "All parallel tasks failed" 0,
           skippedAttempt "streaming" "Not available",
           skippedAttempt "batched" "Not suitable for task",
           successAttempt "sequential" 0],
        totalDuration := some 0 } := by
  have hcount : taskFilesCount t = fs.length := taskFilesCount_eq t fs hfiles
  have hparfail : executeInParallel A t o = ⟨0, .error "All parallel tasks failed"⟩ :=
    executeInParallel_all_fail A t o fs hpar hcfg hfiles (by omega) hlen2 hfail
  have hExecPar : executeStrategy A "parallel" t o = ⟨0, .error "All parallel tasks failed"⟩ := by
    simp [executeStrategy, hparfail]
  have havailSub : isStrategyAvailable A "subAgents" = false := by
    simp [isStrategyAvailable, hsub]
  have havailPar : isStrategyAvailable A "parallel" = true := by
    simp [isStrategyAvailable, hpar]
  have hsuitPar : isStrategySuitable "parallel" t = true := by
    have h2 : 2 < taskFilesCount t := by omega
    simp [isStrategySuitable, h2]
  have havailStr : isStrategyAvailable A "streaming" = false := by
    simp [isStrategyAvailable, hstr]
  have havailBat : isStrategyAvailable A "batched" = true := by
    simp [isStrategyAvailable]
  have hsuitBat : isStrategySuitable "batched" t = false := by
    have hn : ¬ (10 < taskFilesCount t) := by omega
    simp [isStrategySuitable, hn]
  have havailSeq : isStrategyAvailable A "sequential" = true := by
    simp [isStrategyAvailable]
  have hsuitSeq : isStrategySuitable "sequential" t = true := by
    simp [isStrategySuitable]
  have hTimedPar : executeWithTimeout (executeStrategy A "parallel" t o)
      (if o.timeout = 0 then strategyTimeouts "parallel" else o.timeout) =
      ⟨0, .error "All parallel tasks failed"⟩ := by
    rw [htime, if_pos rfl, hExecPar]
    unfold executeWithTimeout
    rw [if_pos (by simp [strategyTimeouts])]
  have hTimedSeq : executeWithTimeout (executeStrategy A "sequential" t o)
      (if o.timeout = 0 then strategyTimeouts "sequential" else o.timeout) =
      ⟨0, .ok res⟩ := by
    rw [htime, if_pos rfl]
    have hstep : executeStrategy A "sequential" t o = ⟨0, .ok res⟩ := by
      simp [executeStrategy, executeSequentially, hok]
    rw [hstep]
    unfold executeWithTimeout
    rw [if_pos (by simp [strategyTimeouts])]
  simp only [execute, hexp]
  rw [hExecPar]
  dsimp only
  simp only [hstrat, Option.getD, defaultStrategies]
  rw [chainLoop_cons_notAvailable A t o _ _ _ _ havailSub,
      chainLoop_cons_fail A t o _ _ _ _ 0 _ havailPar hsuitPar hTimedPar,
      chainLoop_cons_notAvailable A t o _ _ _ _ havailStr,
      chainLoop_cons_notSuitable A t o _ _ _ _ havailBat hsuitBat,
      chainLoop_cons_ok A t o _ _ _ _ 0 res havailSeq hsuitSeq hTimedSeq]
  simp

/-- C4 witness: the amended claim at the `adapterParFail` fixture. -/
theorem claim4_witness :
    getExplicitStrategy adapterParFail taskParallel3 = some "parallel" ∧
    taskFiles taskParallel3 = some ["f0", "f1", "f2"] ∧
    (∀ st ∈ decomposeForParallel taskParallel3,
      isFailedFast (adapterParFail.executeTask st) = true) ∧
    adapterParFail.executeTask taskParallel3 = ⟨0, .ok okResult⟩ ∧
    execute adapterParFail taskParallel3 defaultExecOptions = .ok
      { result := okResult, strategy := some "sequential",
        attempts := some
          [skippedAttempt "subAgents" "Not available",
           failedAttempt "parallel" "All parallel tasks failed" 0,
           skippedAttempt "streaming" "Not available",
           skippedAttempt "batched" "Not suitable for task",
           successAttempt "sequential" 0],
        totalDuration := some 0 } := by
  refine ⟨by decide, by decide, by decide, rfl, ?_⟩
  exact claim4_amended_parallel_fallback adapterParFail taskParallel3 defaultExecOptions
    ["f0", "f1", "f2"] okResult (by decide) (by decide) (by decide) (by decide) (by decide)
    (by decide) (by decide) (by decide) (by decide) rfl rfl rfl
/-! ## C6 -/

theorem jsMapGet_delete_self {κ α : Type} [DecidableEq κ] (m : List (κ × α)) (k : κ) :
    jsMapGet (jsMapDelete m k) k = none := by
  unfold jsMapGet
  have hf : List.find? (fun p => decide (p.1 = k)) (jsMapDelete m k) = none := by
    rw [List.find?_eq_none]
    intro p hp
    unfold jsMapDelete at hp
    have hmem := List.mem_filter.1 hp
    simpa using hmem.2
  rw [hf]
  rfl

theorem jsMapGet_isSome_of_has {κ α : Type} [DecidableEq κ] (m : List (κ × α)) (k : κ)
    (h : jsMapHas m k = true) : ∃ v, jsMapGet m k = some v := by
  cases hg : jsMapGet m k with
  | some v => exact ⟨v, rfl⟩
  | none =>
    exfalso
    unfold jsMapGet at hg
    cases hff : List.find? (fun p => decide (p.1 = k)) m with
    | some p => rw [hff] at hg; cases hg
    | none =>
      rw [List.find?_eq_none] at hff
      obtain ⟨p, hp, hpk⟩ := List.any_eq_true.1 h
      exact hff p hp hpk

theorem mem_keys_of_has {κ α : Type} [DecidableEq κ] (m : List (κ × α)) (k : κ)
    (h : jsMapHas m k = true) : k ∈ jsMapKeys m := by
  obtain ⟨p, hp, hpk⟩ := List.any_eq_true.1 h
  simp only [decide_eq_true_eq] at hpk
  exact hpk ▸ List.mem_map.2 ⟨p, hp, rfl⟩

theorem jsMapSet_ne_nil {κ α : Type} [DecidableEq κ] (m : List (κ × α)) (k : κ) (v : α) :
    jsMapSet m k v ≠ [] := by
  unfold jsMapSet
  by_cases hh : jsMapHas m k
  · rw [if_pos hh]
    intro hcon
    rw [List.map_eq_nil_iff.1 hcon] at hh
    simp [jsMapHas] at hh
  · rw [if_neg hh]
    simp

theorem registryInv_empty : RegistryInv emptyRegistry := by
  refine ⟨List.nodup_nil, ?_, ?_⟩
  · intro name v h
    simp [jsMapGet, emptyRegistry, List.find?] at h
  · intro name vm h
    simp [jsMapGet, emptyRegistry, List.find?] at h

theorem registerAdapter_inv (st : Registry) (hinv : RegistryInv st) (name : String)
    (a : RegAdapter) (ver : Option String) (mkd : Bool) :
    RegistryInv (registerAdapter st name a ver mkd) := by
  obtain ⟨hnd, hb, hc⟩ := hinv
  unfold registerAdapter
  by_cases hname : name = ""
  · rw [if_pos hname]
    exact ⟨hnd, hb, hc⟩
  · rw [if_neg hname]
    refine ⟨?_, ?_, ?_⟩
    · dsimp only
      by_cases hcond : (mkd || ! jsMapHas st.defaults name) = true
      · rw [if_pos hcond]
        exact keys_nodup_set _ _ _ hnd
      · rw [if_neg hcond]
        exact hnd
    · intro n v hget
      dsimp only at hget ⊢
      by_cases hn : n = name
      · subst hn
        refine ⟨jsMapSet ((jsMapGet st.adapters n).getD []) (jsOrString ver a.apiVersion) a,
          jsMapGet_set_self _ _ _, ?_⟩
        by_cases hcond : (mkd || ! jsMapHas st.defaults n) = true
        · rw [if_pos hcond, jsMapGet_set_self] at hget
          injection hget with hget
          subst hget
          exact mem_keys_set_self _ _ _
        · rw [if_neg hcond] at hget
          obtain ⟨vm0, hvm0, hvmem⟩ := hb n v hget
          rw [hvm0]
          exact mem_keys_set_of_mem _ _ _ _ (by simpa [Option.getD] using hvmem)
      · have hget' : jsMapGet st.defaults n = some v := by
          by_cases hcond : (mkd || ! jsMapHas st.defaults name) = true
          · rw [if_pos hcond, jsMapGet_set_ne _ _ _ _ hn] at hget
            exact hget
          · rw [if_neg hcond] at hget
            exact hget
        obtain ⟨vm0, hvm0, hvmem⟩ := hb n v hget'
        exact ⟨vm0, by rw [jsMapGet_set_ne _ _ _ _ hn]; exact hvm0, hvmem⟩
    · intro n vm hget
      dsimp only at hget ⊢
      by_cases hn : n = name
      · subst hn
        rw [jsMapGet_set_self] at hget
        injection hget with hget
        refine ⟨hget ▸ jsMapSet_ne_nil _ _ _, ?_⟩
        by_cases hcond : (mkd || ! jsMapHas st.defaults n) = true
        · rw [if_pos hcond, jsMapGet_set_self]
          exact ⟨_, rfl⟩
        · rw [if_neg hcond]
          have hhas : jsMapHas st.defaults n = true := by
            cases hx : jsMapHas st.defaults n
            · rw [hx] at hcond
              simp at hcond
            · rfl
          exact jsMapGet_isSome_of_has _ _ hhas
      · rw [jsMapGet_set_ne _ _ _ _ hn] at hget
        obtain ⟨hne, v, hv⟩ := hc n vm hget
        refine ⟨hne, ?_⟩
        by_cases hcond : (mkd || ! jsMapHas st.defaults name) = true
        · rw [if_pos hcond, jsMapGet_set_ne _ _ _ _ hn]
          exact ⟨v, hv⟩
        · rw [if_neg hcond]
          exact ⟨v, hv⟩

theorem setDefaultVersion_inv (st : Registry) (hinv : RegistryInv st)
    (name version : String) : RegistryInv (setDefaultVersion st name version) := by
  obtain ⟨hnd, hb, hc⟩ := hinv
  unfold setDefaultVersion
  cases hvm : jsMapGet st.adapters name with
  | none => exact ⟨hnd, hb, hc⟩
  | some vm =>
    dsimp only
    by_cases hhas : jsMapHas vm version
    · rw [if_pos hhas]
      refine ⟨keys_nodup_set _ _ _ hnd, ?_, ?_⟩
      · intro n v hget
        by_cases hn : n = name
        · subst hn
          rw [jsMapGet_set_self] at hget
          injection hget with hget
          subst hget
          exact ⟨vm, hvm, mem_keys_of_has _ _ hhas⟩
        · rw [jsMapGet_set_ne _ _ _ _ hn] at hget
          exact hb n v hget
      · intro n vm' hget
        obtain ⟨hne, v, hv⟩ := hc n vm' hget
        refine ⟨hne, ?_⟩
        by_cases hn : n = name
        · subst hn
          rw [jsMapGet_set_self]
          exact ⟨_, rfl⟩
        · rw [jsMapGet_set_ne _ _ _ _ hn]
          exact ⟨v, hv⟩
    · rw [if_neg hhas]
      exact ⟨hnd, hb, hc⟩

theorem recordMetrics_inv (st : Registry) (hinv : RegistryInv st) (name version : String)
    (duration : Nat) (failed : Bool) (now : Nat) :
    RegistryInv (recordMetrics st name version duration failed now) := by
  obtain ⟨hnd, hb, hc⟩ := hinv
  have hada : (recordMetrics st name version duration failed now).adapters = st.adapters := by
    unfold recordMetrics
    dsimp only
    split <;> rfl
  have hdef : (recordMetrics st name version duration failed now).defaults = st.defaults := by
    unfold recordMetrics
    dsimp only
    split <;> rfl
  unfold RegistryInv
  rw [hada, hdef]
  exact ⟨hnd, hb, hc⟩
theorem registryInv_delete_both (st : Registry) (hinv : RegistryInv st) (name : String) :
    RegistryInv { st with adapters := jsMapDelete st.adapters name,
                          defaults := jsMapDelete st.defaults name } := by
  obtain ⟨hnd, hb, hc⟩ := hinv
  refine ⟨keys_nodup_delete _ _ hnd, ?_, ?_⟩
  · intro n v hget
    dsimp only at hget ⊢
    by_cases hn : n = name
    · subst hn
      rw [jsMapGet_delete_self] at hget
      cases hget
    · rw [jsMapGet_delete_ne _ _ _ hn] at hget
      obtain ⟨vm, hvm, hvmem⟩ := hb n v hget
      exact ⟨vm, by rw [jsMapGet_delete_ne _ _ _ hn]; exact hvm, hvmem⟩
  · intro n vm hget
    dsimp only at hget ⊢
    by_cases hn : n = name
    · subst hn
      rw [jsMapGet_delete_self] at hget
      cases hget
    · rw [jsMapGet_delete_ne _ _ _ hn] at hget
      obtain ⟨hne, v, hv⟩ := hc n vm hget
      exact ⟨hne, v, by rw [jsMapGet_delete_ne _ _ _ hn]; exact hv⟩

theorem unregisterAdapter_inv (st : Registry) (hinv : RegistryInv st) (name : String)
    (version : Option String) : RegistryInv (unregisterAdapter st name version) := by
  have hinv' := hinv
  obtain ⟨hnd, hb, hc⟩ := hinv
  unfold unregisterAdapter
  by_cases hhas : jsMapHas st.adapters name
  · rw [if_neg (by simp [hhas])]
    obtain ⟨vm0, hvm0⟩ := jsMapGet_isSome_of_has _ _ hhas
    by_cases htr : strTruthy version
    · rw [if_pos htr]
      dsimp only
      rw [hvm0]
      simp only [Option.getD_some]
      by_cases hemp : (jsMapDelete vm0 (version.getD "")).isEmpty
      · rw [if_pos hemp]
        exact registryInv_delete_both st hinv' name
      · rw [if_neg hemp]
        have hvne : jsMapDelete vm0 (version.getD "") ≠ [] := by
          simpa [List.isEmpty_iff] using hemp
        by_cases hd : jsMapGet st.defaults name = some (version.getD "")
        · rw [if_pos hd]
          cases hk : jsMapKeys (jsMapDelete vm0 (version.getD "")) with
          | nil =>
            exfalso
            exact hvne (List.map_eq_nil_iff.1 hk)
          | cons v0 rest =>
            refine ⟨keys_nodup_set _ _ _ hnd, ?_, ?_⟩
            · intro n v hget
              dsimp only at hget ⊢
              by_cases hn : n = name
              · subst hn
                rw [jsMapGet_set_self] at hget
                injection hget with hget
                subst hget
                refine ⟨jsMapDelete vm0 (version.getD ""), jsMapGet_set_self _ _ _, ?_⟩
                rw [hk]
                exact List.mem_cons_self v0 rest
              · rw [jsMapGet_set_ne _ _ _ _ hn] at hget
                obtain ⟨vm, hvm, hvmem⟩ := hb n v hget
                exact ⟨vm, by rw [jsMapGet_set_ne _ _ _ _ hn]; exact hvm, hvmem⟩
            · intro n vm hget
              dsimp only at hget ⊢
              by_cases hn : n = name
              · subst hn
                rw [jsMapGet_set_self] at hget
                injection hget with hget
                subst hget
                exact ⟨hvne, v0, jsMapGet_set_self _ _ _⟩
              · rw [jsMapGet_set_ne _ _ _ _ hn] at hget
                obtain ⟨hne, v, hv⟩ := hc n vm hget
                exact ⟨hne, v, by rw [jsMapGet_set_ne _ _ _ _ hn]; exact hv⟩
        · rw [if_neg hd]
          refine ⟨hnd, ?_, ?_⟩
          · intro n v hget
            dsimp only at hget ⊢
            by_cases hn : n = name
            · subst hn
              have hvv : ¬ v = version.getD "" := by
                intro hcon
                exact hd (hcon ▸ hget)
              obtain ⟨vm, hvm, hvmem⟩ := hb n v hget
              have hvm0eq : vm = vm0 := by
                rw [hvm0] at hvm
                injection hvm with hvm
                exact hvm.symm
              subst hvm0eq
              exact ⟨jsMapDelete vm (version.getD ""), jsMapGet_set_self _ _ _,
                mem_keys_delete _ _ _ hvmem hvv⟩
            · rw [jsMapGet_set_ne _ _ _ _ hn]
              obtain ⟨vm, hvm, hvmem⟩ := hb n v hget
              exact ⟨vm, hvm, hvmem⟩
          · intro n vm hget
            dsimp only at hget ⊢
            by_cases hn : n = name
            · subst hn
              rw [jsMapGet_set_self] at hget
              injection hget with hget
              subst hget
              obtain ⟨hne0, v, hv⟩ := hc n vm0 hvm0
              exact ⟨hvne, v, hv⟩
            · rw [jsMapGet_set_ne _ _ _ _ hn] at hget
              exact hc n vm hget
    · rw [if_neg htr]
      exact registryInv_delete_both st hinv' name
  · rw [if_pos (by simp [hhas])]
    exact hinv'

theorem applyRegOp_inv (st : Registry) (hinv : RegistryInv st) (op : RegOp) :
    RegistryInv (applyRegOp st op) := by
  cases op with
  | register name a ver mkd => exact registerAdapter_inv st hinv name a ver mkd
  | setDefault name version => exact setDefaultVersion_inv st hinv name version
  | unregister name version => exact unregisterAdapter_inv st hinv name version
  | record name version duration failed now =>
    exact recordMetrics_inv st hinv name version duration failed now

theorem applyRegOps_inv (ops : List RegOp) : RegistryInv (applyRegOps ops) := by
  unfold applyRegOps
  suffices h : ∀ (ops : List RegOp) (st : Registry), RegistryInv st →
      RegistryInv (ops.foldl applyRegOp st) by
    exact h ops emptyRegistry registryInv_empty
  intro ops
  induction ops with
  | nil => intro st h; exact h
  | cons op ops ih =>
    intro st h
    rw [List.foldl_cons]
    exact ih _ (applyRegOp_inv st h op)

/-- C6: after any sequence of registry API calls starting from the empty
registry, the defaults map binds each name at most once, every name that
still has registered versions has a default that is one of its registered
versions, and the first version registered for a fresh name becomes the
default even when `setAsDefault` is `false`. -/
theorem claim6_default_version_invariant (ops : List RegOp) :
    ((jsMapKeys (applyRegOps ops).defaults).Nodup ∧
     ∀ name vm, jsMapGet (applyRegOps ops).adapters name = some vm →
       vm ≠ [] ∧ ∃ v, jsMapGet (applyRegOps ops).defaults name = some v ∧ v ∈ jsMapKeys vm) ∧
    (∀ (name : String) (a : RegAdapter) (ver : Option String) (mkd : Bool),
      jsMapGet (applyRegOps ops).adapters name = none → ¬ name = "" →
      jsMapGet (registerAdapter (applyRegOps ops) name a ver mkd).defaults name =
        some (jsOrString ver a.apiVersion)) := by
  obtain ⟨hnd, hb, hc⟩ := applyRegOps_inv ops
  constructor
  · refine ⟨hnd, ?_⟩
    intro name vm hget
    obtain ⟨hne, v, hv⟩ := hc name vm hget
    obtain ⟨vm2, hvm2, hvmem⟩ := hb name v hv
    have : vm2 = vm := by
      rw [hget] at hvm2
      injection hvm2 with h
      exact h.symm
    exact ⟨hne, v, hv, this ▸ hvmem⟩
  · intro name a ver mkd hnone hname
    have hnothas : jsMapHas (applyRegOps ops).defaults name = false := by
      cases hx : jsMapHas (applyRegOps ops).defaults name
      · rfl
      · exfalso
        obtain ⟨v, hv⟩ := jsMapGet_isSome_of_has _ _ hx
        obtain ⟨vm, hvm, _⟩ := hb name v hv
        rw [hnone] at hvm
        cases hvm
    unfold registerAdapter
    rw [if_neg hname]
    dsimp only
    rw [if_pos (by simp [hnothas])]
    exact jsMapGet_set_self _ _ _

/-- C6 witness: two registrations (both with `setAsDefault = false`)
followed by unregistering the default version; the remaining version map
is nonempty and the default repoints at the surviving version, and a fresh
registration of the name `"beta"` with `setAsDefault = false` still
becomes its default. -/
theorem claim6_witness :
    jsMapGet (applyRegOps regOpsW).adapters "alpha" =
      some [("2.0.0", { regAdapterW with apiVersion := "2.0.0" })] ∧
    ([("2.0.0", { regAdapterW with apiVersion := "2.0.0" })] :
        List (String × RegAdapter)) ≠ [] ∧
    (∃ v, jsMapGet (applyRegOps regOpsW).defaults "alpha" = some v ∧
      v ∈ jsMapKeys [("2.0.0", { regAdapterW with apiVersion := "2.0.0" })]) ∧
    jsMapGet (applyRegOps regOpsW).adapters "beta" = none ∧
    jsMapGet (registerAdapter (applyRegOps regOpsW) "beta" regAdapterW none false).defaults
      "beta" = some (jsOrString none regAdapterW.apiVersion) := by
  refine ⟨by decide, by decide, ?_, by decide, ?_⟩
  · have h := ((claim6_default_version_invariant regOpsW).1.2 "alpha"
      [("2.0.0", { regAdapterW with apiVersion := "2.0.0" })] (by decide)).2
    exact h
  · exact (claim6_default_version_invariant regOpsW).2 "beta" regAdapterW none false
      (by decide) (by decide)
/-! ## C10 -/

theorem setDefaultVersion_metrics (st : Registry) (name version : String) :
    (setDefaultVersion st name version).metrics = st.metrics := by
  unfold setDefaultVersion
  split
  · rfl
  · split
    · rfl
    · rfl

theorem unregisterAdapter_metrics (st : Registry) (name : String) (version : Option String) :
    (unregisterAdapter st name version).metrics = st.metrics := by
  unfold unregisterAdapter
  split
  · rfl
  · split
    · dsimp only
      split
      · rfl
      · rfl
    · rfl

theorem recordMetrics_metrics_set (st : Registry) (name version : String) (duration : Nat)
    (failed : Bool) (now : Nat) :
    ∃ e, (recordMetrics st name version duration failed now).metrics =
      jsMapSet st.metrics (name ++ ":" ++ version) e := by
  unfold recordMetrics
  dsimp only
  split
  · exact ⟨_, rfl⟩
  · exact ⟨_, rfl⟩

theorem registerAdapter_metrics_key (st : Registry) (name : String) (a : RegAdapter)
    (ver : Option String) (mkd : Bool) (key : String) (hk : ¬ name = key)
    (h : jsMapGet st.metrics key = none) :
    jsMapGet (registerAdapter st name a ver mkd).metrics key = none := by
  unfold registerAdapter
  by_cases hname : name = ""
  · rw [if_pos hname]
    exact h
  · rw [if_neg hname]
    dsimp only
    by_cases hmet : jsMapHas st.metrics name
    · rw [if_pos hmet]
      exact h
    · rw [if_neg hmet]
      rw [jsMapGet_set_ne _ _ _ _ (fun hc => hk hc.symm)]
      exact h

theorem applyRegOp_metrics_key (st : Registry) (op : RegOp) (key : String)
    (h : jsMapGet st.metrics key = none)
    (hop : match op with
           | .register n _ _ _ => ¬ n = key
           | .record n v _ _ _ => ¬ n ++ ":" ++ v = key
           | _ => True) :
    jsMapGet (applyRegOp st op).metrics key = none := by
  cases op with
  | register n a ver mkd => exact registerAdapter_metrics_key st n a ver mkd key hop h
  | setDefault n v =>
    show jsMapGet (setDefaultVersion st n v).metrics key = none
    rw [setDefaultVersion_metrics]
    exact h
  | unregister n v =>
    show jsMapGet (unregisterAdapter st n v).metrics key = none
    rw [unregisterAdapter_metrics]
    exact h
  | record n v duration failed now =>
    obtain ⟨e, he⟩ := recordMetrics_metrics_set st n v duration failed now
    show jsMapGet (recordMetrics st n v duration failed now).metrics key = none
    rw [he, jsMapGet_set_ne _ _ _ _ (fun hc => hop hc.symm)]
    exact h

theorem metrics_key_none (ops : List RegOp) (key : String)
    (hreg : ∀ (n : String) (a : RegAdapter) (v : Option String) (m : Bool),
      RegOp.register n a v m ∈ ops → ¬ n = key)
    (hrec : ∀ (n v : String) (dur : Nat) (f : Bool) (now : Nat),
      RegOp.record n v dur f now ∈ ops → ¬ n ++ ":" ++ v = key) :
    jsMapGet (applyRegOps ops).metrics key = none := by
  unfold applyRegOps
  suffices hstep : ∀ (ops : List RegOp) (st : Registry),
      jsMapGet st.metrics key = none →
      (∀ (n : String) (a : RegAdapter) (v : Option String) (m : Bool),
        RegOp.register n a v m ∈ ops → ¬ n = key) →
      (∀ (n v : String) (dur : Nat) (f : Bool) (now : Nat),
        RegOp.record n v dur f now ∈ ops → ¬ n ++ ":" ++ v = key) →
      jsMapGet (ops.foldl applyRegOp st).metrics key = none by
    exact hstep ops emptyRegistry (by simp [jsMapGet, emptyRegistry, List.find?]) hreg hrec
  intro ops
  induction ops with
  | nil =>
    intro st h _ _
    exact h
  | cons op ops ih =>
    intro st h hreg' hrec'
    rw [List.foldl_cons]
    refine ih _ ?_ (fun n a v m hm => hreg' n a v m (by simp [hm]))
      (fun n v dur f now hm => hrec' n v dur f now (by simp [hm]))
    apply applyRegOp_metrics_key st op key h
    cases op with
    | register n a v m => exact hreg' n a v m (by simp)
    | record n v dur f now => exact hrec' n v dur f now (by simp)
    | setDefault n v => trivial
    | unregister n v => trivial

/-- C10 counterexample: registering an adapter under the bare name
`"a:1.0.0"` seeds the shared `_metrics` map with an empty `Map` under that
key; `getAdapterMetrics("a", "1.0.0")` then returns that leftover entry —
not the default record — although the pair has no recorded executions. -/
theorem claim10_counterexample :
    getAdapterMetrics (applyRegOps regCollideOps) "a" "1.0.0" = .initMap ∧
    ¬ getAdapterMetrics (applyRegOps regCollideOps) "a" "1.0.0" =
        .record defaultMetricsRecord := by
  exact ⟨by decide, by decide⟩

/-- C10 amended: for every pair `(name, version)` such that no
`recordMetrics` call collides on the key `name + ":" + version` and no
adapter was registered under that exact bare name, `getAdapterMetrics`
returns the default record (`totalExecutions 0, totalDuration 0,
failures 0, avgDuration 0, successRate 1, lastUpdated null`) rather than
null or an error; and since its `avgDuration` (0) is falsy,
`selectOptimalAdapter`'s performance boost leaves such a match's score
untouched. -/
theorem claim10_amended_default_metrics (ops : List RegOp) (name version : String)
    (hreg : ∀ (n : String) (a : RegAdapter) (v : Option String) (m : Bool),
      RegOp.register n a v m ∈ ops → ¬ n = name ++ ":" ++ version)
    (hrec : ∀ (n v : String) (dur : Nat) (f : Bool) (now : Nat),
      RegOp.record n v dur f now ∈ ops → ¬ n ++ ":" ++ v = name ++ ":" ++ version) :
    getAdapterMetrics (applyRegOps ops) name version = .record defaultMetricsRecord ∧
    (∀ m : AdapterMatch, m.name = name → m.version = version →
      applyPerformanceBoost (applyRegOps ops) m = m) := by
  have hnone := metrics_key_none ops (name ++ ":" ++ version) hreg hrec
  have hdefault : getAdapterMetrics (applyRegOps ops) name version =
      .record defaultMetricsRecord := by
    unfold getAdapterMetrics
    rw [hnone]
    rfl
  refine ⟨hdefault, ?_⟩
  intro m h1 h2
  unfold applyPerformanceBoost
  rw [h1, h2, hdefault]
  rw [if_neg (by decide)]

/-- C10 witness: the amended claim at `regOpsC10` and the pair
`("a", "1.0.0")`. -/
theorem claim10_witness :
    getAdapterMetrics (applyRegOps regOpsC10) "a" "1.0.0" = .record defaultMetricsRecord ∧
    applyPerformanceBoost (applyRegOps regOpsC10) matchW = matchW := by
  have h := claim10_amended_default_metrics regOpsC10 "a" "1.0.0"
    (by
      intro n a v m hm
      simp only [regOpsC10, List.mem_cons, List.not_mem_nil, or_false] at hm
      rcases hm with hm | hm
      · injection hm with hn ha hv hmk
        subst hn
        decide
      · simp at hm)
    (by
      intro n v dur f now hm
      simp only [regOpsC10, List.mem_cons, List.not_mem_nil, or_false] at hm
      rcases hm with hm | hm
      · simp at hm
      · injection hm with hn hv hd hf hnow
        subst hn
        subst hv
        decide)
  exact ⟨h.1, h.2 matchW rfl rfl⟩
/-! ## C7 -/

/-- C7: when a first `route` call at `now1` misses the cache and resolves
successfully, a second call within the 5-minute TTL with a task producing
the same cache key returns the identical cached `RoutingDecision` (the
very value stored, not a recomputation), leaves the router state
untouched, and emits only the cache-hit event (no routed event, no
registry consultation).  The size bound keeps the first call's insertion
from triggering the eviction sweep. -/
theorem claim7_route_cache_hit (reg : Registry) (prefs : Preferences) (st : RouterState)
    (t1 t2 : Task) (now1 now2 : Nat) (d : RoutingDecision) (st1 : RouterState)
    (evs : List RouterEvent)
    (hmiss : (getCachedRoute st (generateCacheKey t1) now1).1 = none)
    (hroute : route reg prefs st t1 now1 = (.ok d, st1, evs))
    (hkey : generateCacheKey t2 = generateCacheKey t1)
    (hsize : st.routingCache.length < 1000)
    (httl : now2 - now1 ≤ cacheTTL) :
    route reg prefs st1 t2 now2 = (.ok d, st1, [.cacheHit t2.id d.adapter.name]) := by
  cases hg : getCachedRoute st (generateCacheKey t1) now1 with
  | mk copt st' =>
    have hcopt : copt = none := by
      rw [hg] at hmiss
      exact hmiss
    subst hcopt
    have hst'len : st'.routingCache.length ≤ st.routingCache.length := by
      unfold getCachedRoute at hg
      cases hgc : jsMapGet st.routingCache (generateCacheKey t1) with
      | none =>
        rw [hgc] at hg
        injection hg with h1 h2
        rw [← h2]
      | some cached =>
        rw [hgc] at hg
        dsimp only at hg
        by_cases hexp : now1 - cached.timestamp > cacheTTL
        · rw [if_pos hexp] at hg
          injection hg with h1 h2
          rw [← h2]
          exact length_delete_le _ _
        · rw [if_neg hexp] at hg
          injection hg with h1 h2
          cases h1
    simp only [route] at hroute
    rw [hg] at hroute
    dsimp only at hroute
    cases hsel : selectOptimalAdapter reg (analyzeTask t1) prefs with
    | none =>
      rw [hsel] at hroute
      simp at hroute
    | some sel =>
      rw [hsel] at hroute
      dsimp only at hroute
      simp only [Prod.mk.injEq] at hroute
      obtain ⟨hd, hst1, hevs⟩ := hroute
      injection hd with hd
      have hts : d.timestamp = now1 := by
        rw [← hd]
      have hget1 : jsMapGet st1.routingCache (generateCacheKey t1) = some d := by
        rw [← hst1]
        unfold cacheRoute
        have hlen := length_set_le st'.routingCache (generateCacheKey t1)
          { adapter := sel.adapter, adapterName := sel.name, adapterVersion := sel.version,
            strategy := selectStrategy sel.adapter t1 (analyzeTask t1) prefs,
            requirements := analyzeTask t1, score := sel.score, timestamp := now1 }
        rw [if_neg (by omega)]
        dsimp only
        rw [hd]
        exact jsMapGet_set_self _ _ _
      have hcached : getCachedRoute st1 (generateCacheKey t1) now2 = (some d, st1) := by
        unfold getCachedRoute
        rw [hget1]
        dsimp only
        rw [if_neg (by rw [hts]; omega)]
      simp only [route]
      rw [hkey, hcached]

/-- C7 witness: routing `taskR` twice against `regR`, 1 second apart. -/
theorem claim7_witness :
    (getCachedRoute ⟨[]⟩ (generateCacheKey taskR) 1000).1 = none ∧
    route regR defaultPreferences ⟨[]⟩ taskR 1000 =
      (.ok decisionW, routerStateW, [.routed "r1" "zzz" "test-adapter" "1.0.0" "sequential"]) ∧
    route regR defaultPreferences routerStateW taskR 2000 =
      (.ok decisionW, routerStateW, [.cacheHit "r1" "test-adapter"]) := by
  have hfirst : route regR defaultPreferences ⟨[]⟩ taskR 1000 =
      (.ok decisionW, routerStateW, [.routed "r1" "zzz" "test-adapter" "1.0.0" "sequential"]) :=
    rfl
  refine ⟨rfl, hfirst, ?_⟩
  exact claim7_route_cache_hit regR defaultPreferences ⟨[]⟩ taskR taskR 1000 2000 decisionW
    routerStateW [.routed "r1" "zzz" "test-adapter" "1.0.0" "sequential"] rfl hfirst rfl
    (by decide) (by decide)
end Repochief
